import Mathlib

/-!
Verification of the react-doc-viewer rendering-orchestration layer.

This file shallowly embeds the pure logic of the repository's source files
(`src/FormatRouter.ts`, `src/DocumentViewer.tsx`, `src/utils/conversionWorker.ts`,
`src/renderers/PdfRenderer.tsx`) as Lean definitions and proves the frozen
claims C1–C10 about them.  JavaScript numbers involved in zoom arithmetic are
modelled as rationals; strings are modelled as Lean `String`s (UTF-8 char
lists); asynchronous effect lifecycles are modelled as explicit transition
systems.
-/

set_option maxHeartbeats 1000000

namespace DocViewer

/-- `strContains s pat`: the string `s` contains `pat` as a contiguous
substring (JavaScript `s.includes(pat)`). -/
def strContains (s pat : String) : Prop :=
  pat.data <:+: s.data

instance (s pat : String) : Decidable (strContains s pat) := by
  unfold strContains
  infer_instance

theorem strContains_append_middle (a pat b : String) :
    strContains (a ++ pat ++ b) pat := by
  unfold strContains
  rw [String.data_append, String.data_append]
  exact ⟨a.data, b.data, rfl⟩

/-! ## Conversion worker (`src/utils/conversionWorker.ts`, `convertViaWorker`)

The HTTP response observed by `convertViaWorker` is modelled by its fields
that the function inspects: status (with `res.ok ↔ 200 ≤ status ≤ 299` per
the fetch specification), status text, `Content-Type` header, the body as
text, the body as a binary blob (only its size matters), and the `url`
field of the body parsed as JSON (when present and a string). -/

structure WorkerResponse where
  status : Nat
  statusText : String
  contentType : Option String
  bodyText : String
  blobSize : Nat
  jsonUrl : Option String

/-- `res.ok` of the fetch API: status in the inclusive range 200–299. -/
def WorkerResponse.ok (r : WorkerResponse) : Bool :=
  200 ≤ r.status && r.status ≤ 299

structure ConversionResult where
  pdfUrl : String
  /-- whether a `revoke` function was returned (object URL from binary body). -/
  revocable : Bool

/-- Placeholder for `URL.createObjectURL(blob)`. -/
def objectUrlOfBlob : String := "blob:converted-pdf"

/-- Shallow embedding of `convertViaWorker` (src/utils/conversionWorker.ts):
the decision logic applied to the worker response, returning either a
conversion result or the thrown error message. -/
def convertViaWorker (r : WorkerResponse) : Except String ConversionResult :=
  if !r.ok then
    Except.error ("Conversion failed: " ++ toString r.status ++ " " ++
      (if r.bodyText = "" then r.statusText else r.bodyText) ++
      ". Check conversion worker URL and CORS.")
  else
    let ct := (r.contentType).getD ""
    if strContains ct "application/pdf" then
      if r.blobSize = 0 then
        Except.error "Conversion failed: worker returned empty PDF."
      else
        Except.ok ⟨objectUrlOfBlob, true⟩
    else if strContains ct "application/json" then
      match r.jsonUrl with
      | some u => Except.ok ⟨u, false⟩
      | none => Except.error "Conversion response missing url"
    else
      Except.error ("Unexpected response type: " ++ ct)

/-- Outcome of one run of the conversion `useEffect` in
`src/DocumentViewer.tsx` (lines 107–140), once the conversion promise has
settled: which state is committed and how many times `onConversionError`
is invoked. -/
structure ConversionOutcome where
  convertedPdfUrl : Option String
  conversionError : Option String
  onConversionErrorCalls : Nat

/-- The `runConversion().catch(...)` continuation of the conversion effect:
on success the URL is committed unless the run was cancelled; on failure the
error message is committed and `onConversionError` is invoked exactly once,
unless the run was cancelled. -/
def conversionEffectStep (result : Except String ConversionResult)
    (cancelled : Bool) : ConversionOutcome :=
  match result with
  | Except.ok cr =>
      if !cancelled then ⟨some cr.pdfUrl, none, 0⟩ else ⟨none, none, 0⟩
  | Except.error msg =>
      if !cancelled then ⟨none, some msg, 1⟩ else ⟨none, none, 0⟩

theorem strContains_refl (s : String) : strContains s s :=
  ⟨[], [], by simp⟩

theorem strContains_append_left (a b pat : String) (h : strContains a pat) :
    strContains (a ++ b) pat := by
  obtain ⟨u, v, huv⟩ := h
  refine ⟨u, v ++ b.data, ?_⟩
  rw [String.data_append, ← huv]
  simp

theorem strContains_append_right (a b pat : String) (h : strContains b pat) :
    strContains (a ++ b) pat := by
  obtain ⟨u, v, huv⟩ := h
  refine ⟨a.data ++ u, v, ?_⟩
  rw [String.data_append, ← huv]
  simp

/-- C2: every conversion-worker response with a non-success HTTP status, an
unexpected content type, or an empty binary (PDF) body makes `convertViaWorker`
fail with an error; in the non-success-status case the message contains the
status and, when non-empty, the response body text; and the conversion effect
invokes `onConversionError` exactly once for that failure and commits no URL. -/
theorem conversion_failure_reports_and_calls_once
    (r : WorkerResponse)
    (h : r.ok = false ∨
      (r.ok = true ∧ ¬ strContains ((r.contentType).getD "") "application/pdf" ∧
        ¬ strContains ((r.contentType).getD "") "application/json") ∨
      (r.ok = true ∧ strContains ((r.contentType).getD "") "application/pdf" ∧
        r.blobSize = 0)) :
    ∃ msg, convertViaWorker r = Except.error msg ∧
      conversionEffectStep (convertViaWorker r) false =
        ⟨none, some msg, 1⟩ ∧
      (r.ok = false →
        strContains msg (toString r.status) ∧
        (r.bodyText ≠ "" → strContains msg r.bodyText)) := by
  rcases h with hok | ⟨hok, hpdf, hjson⟩ | ⟨hok, hpdf, hblob⟩
  · refine ⟨"Conversion failed: " ++ toString r.status ++ " " ++
      (if r.bodyText = "" then r.statusText else r.bodyText) ++
      ". Check conversion worker URL and CORS.", ?_, ?_, ?_⟩
    · simp [convertViaWorker, hok]
    · simp [convertViaWorker, hok, conversionEffectStep]
    · intro _
      constructor
      · apply strContains_append_left
        apply strContains_append_left
        apply strContains_append_left
        exact strContains_append_right _ _ _ (strContains_refl _)
      · intro hbt
        rw [if_neg hbt]
        apply strContains_append_left
        exact strContains_append_right _ _ _ (strContains_refl _)
  · refine ⟨"Unexpected response type: " ++ (r.contentType).getD "", ?_, ?_, ?_⟩
    · simp [convertViaWorker, hok, hpdf, hjson]
    · simp [convertViaWorker, hok, hpdf, hjson, conversionEffectStep]
    · intro hfalse
      rw [hok] at hfalse
      exact absurd hfalse (by decide)
  · refine ⟨"Conversion failed: worker returned empty PDF.", ?_, ?_, ?_⟩
    · simp [convertViaWorker, hok, hpdf, hblob]
    · simp [convertViaWorker, hok, hpdf, hblob, conversionEffectStep]
    · intro hfalse
      rw [hok] at hfalse
      exact absurd hfalse (by decide)

/-- The C2 scenario response: status 500 with body "bad file". -/
def resp500 : WorkerResponse :=
  ⟨500, "Internal Server Error", some "text/plain", "bad file", 0, none⟩

/-- Witness for C2 at the scenario input: status 500, body "bad file". -/
theorem conversion_failure_reports_and_calls_once_witness :
    (∃ msg, convertViaWorker resp500 = Except.error msg ∧
      conversionEffectStep (convertViaWorker resp500) false =
        ⟨none, some msg, 1⟩ ∧
      (resp500.ok = false →
        strContains msg (toString resp500.status) ∧
        (resp500.bodyText ≠ "" → strContains msg resp500.bodyText))) ∧
    convertViaWorker resp500 = Except.error
      "Conversion failed: 500 bad file. Check conversion worker URL and CORS." ∧
    strContains "Conversion failed: 500 bad file. Check conversion worker URL and CORS." "500" ∧
    strContains "Conversion failed: 500 bad file. Check conversion worker URL and CORS." "bad file" :=
  ⟨conversion_failure_reports_and_calls_once resp500 (Or.inl (by decide)),
   by rfl, by decide, by decide⟩

/-! ## Format resolver (`src/FormatRouter.ts`)

`new URL(src, "https://example.com")` is modelled by an abstract function
`up : String → Option String` returning the parsed URL's `pathname` on
success and `none` when the constructor throws, so the results hold for
any URL implementation.

JavaScript object-literal indexing consults the prototype chain: a miss on
an object's own keys still yields a truthy inherited function (or, for
`__proto__`, an object) when the key names an `Object.prototype` member.
`jsIndex` models this three-way outcome, so the renderer key and the mime
value leaving `getRendererKey` may be such an inherited value rather than
a member of the closed renderer-key set or a string. -/

inductive RendererKey
  | pdf
  | pdfOcr
  | docx
  | officePdf
  | unsupported
deriving DecidableEq, Repr

/-- Document source: a URL string or an in-memory binary with a declared
MIME `type` (Blob/File). -/
inductive DocSource
  | url (s : String)
  | blob (type : String)
deriving DecidableEq

/-- The property names every plain object inherits from `Object.prototype`;
indexing an object literal with one of these yields a truthy value even
though it is not an own key. -/
def OBJECT_PROTOTYPE_KEYS : List String :=
  ["constructor", "hasOwnProperty", "isPrototypeOf", "propertyIsEnumerable",
   "toLocaleString", "toString", "valueOf", "__proto__",
   "__defineGetter__", "__defineSetter__", "__lookupGetter__",
   "__lookupSetter__"]

/-- Outcome of `obj[k]` on an object literal: an own entry, a truthy value
inherited from `Object.prototype`, or `undefined` (falsy). -/
inductive JsLookup (α : Type) where
  | own (a : α)
  | inherited (name : String)
  | undef
deriving DecidableEq, Repr

/-- `obj[k]` for an object literal whose own entries are `ownProps`. -/
def jsIndex {α : Type} (ownProps : String → Option α) (k : String) :
    JsLookup α :=
  match ownProps k with
  | some v => JsLookup.own v
  | none =>
      if k ∈ OBJECT_PROTOTYPE_KEYS then JsLookup.inherited k
      else JsLookup.undef

/-- The own entries of the `MIME_TO_RENDERER` literal (src/FormatRouter.ts
lines 3–11). -/
def MIME_TO_RENDERER_own (m : String) : Option RendererKey :=
  if m = "application/pdf" then some RendererKey.pdf
  else if m = "application/vnd.openxmlformats-officedocument.wordprocessingml.document" then
    some RendererKey.docx
  else if m = "application/vnd.openxmlformats-officedocument.presentationml.presentation" then
    some RendererKey.officePdf
  else if m = "application/vnd.ms-powerpoint" then some RendererKey.officePdf
  else if m = "application/msword" then some RendererKey.officePdf
  else none

/-- `MIME_TO_RENDERER[m]`. -/
def MIME_TO_RENDERER (m : String) : JsLookup RendererKey :=
  jsIndex MIME_TO_RENDERER_own m

/-- The own entries of the `EXT_TO_RENDERER` literal (src/FormatRouter.ts
lines 13–19). -/
def EXT_TO_RENDERER_own (e : String) : Option RendererKey :=
  if e = "pdf" then some RendererKey.pdf
  else if e = "docx" then some RendererKey.docx
  else if e = "doc" then some RendererKey.officePdf
  else if e = "pptx" then some RendererKey.officePdf
  else if e = "ppt" then some RendererKey.officePdf
  else none

/-- `EXT_TO_RENDERER[e]`. -/
def EXT_TO_RENDERER (e : String) : JsLookup RendererKey :=
  jsIndex EXT_TO_RENDERER_own e

/-- The own entries of the `EXT_TO_MIME` literal (src/FormatRouter.ts
lines 43–51). -/
def EXT_TO_MIME_own (e : String) : Option String :=
  if e = "pdf" then some "application/pdf"
  else if e = "docx" then
    some "application/vnd.openxmlformats-officedocument.wordprocessingml.document"
  else if e = "doc" then some "application/msword"
  else if e = "pptx" then
    some "application/vnd.openxmlformats-officedocument.presentationml.presentation"
  else if e = "ppt" then some "application/vnd.ms-powerpoint"
  else none

/-- `EXT_TO_MIME[e]`. -/
def EXT_TO_MIME (e : String) : JsLookup String :=
  jsIndex EXT_TO_MIME_own e

/-- ASCII lowercasing of a string (JavaScript `toLowerCase` restricted to
the characters appearing in formats and queries), as a char-wise map. -/
def toLowerStr (s : String) : String :=
  String.mk (s.data.map Char.toLower)

/-- `s.split(".").pop()`: the segment after the last dot, or the whole
string when it has no dot. -/
def lastDotSegment (s : String) : String :=
  String.mk ((s.data.reverse.takeWhile (fun c => c ≠ '.')).reverse)

/-- `pathname.split(".").pop()?.toLowerCase()` applied to the parsed
pathname when the URL constructor succeeds, or to the raw source string in
the catch branch. -/
def extCandidate (up : String → Option String) (s : String) : String :=
  let base := match up s with
    | some p => p
    | none => s
  toLowerStr (lastDotSegment base)

/-- A value flowing through the `resolvedMime`/`mimeType` positions: a
string, or a (truthy, non-string) `Object.prototype` member that leaked
out of a table lookup. -/
inductive JsMime
  | str (s : String)
  | protoVal (name : String)
deriving DecidableEq, Repr

/-- JavaScript truthiness of such a value: only the empty string is falsy. -/
def JsMime.truthy : JsMime → Bool
  | JsMime.str s => s ≠ ""
  | JsMime.protoVal _ => true

/-- Using such a value as a property key coerces it to a string.  The
string form of an inherited `Object.prototype` function, or of
`Object.prototype` itself, is never an own key of the tables nor an
`Object.prototype` member name — the only fact the control flow depends
on — so it is modelled by a marker form. -/
def JsMime.asKey : JsMime → String
  | JsMime.str s => s
  | JsMime.protoVal name => "[inherited-" ++ name ++ "]"

/-- The renderer key leaving `getRendererKey`: a member of the declared
closed set, or an inherited `Object.prototype` member that leaked out of a
table lookup. -/
inductive JsRendererKey
  | key (k : RendererKey)
  | protoFn (name : String)
deriving DecidableEq, Repr

/-- `inferMimeType` of src/FormatRouter.ts: URL sources use the pathname
extension (a truthy `EXT_TO_MIME[ext]`, own or inherited, is returned),
binary sources use their declared (possibly empty) `type`. -/
def inferMimeType (up : String → Option String) : DocSource → Option JsMime
  | DocSource.url s =>
      let ext := extCandidate up s
      if ext ≠ "" then
        match EXT_TO_MIME ext with
        | JsLookup.own m => if m = "" then none else some (JsMime.str m)
        | JsLookup.inherited n => some (JsMime.protoVal n)
        | JsLookup.undef => none
      else none
  | DocSource.blob t => if t ≠ "" then some (JsMime.str t) else none

/-- `mimeType ?? inferMimeType(src)`. -/
def resolveMime (up : String → Option String) (src : DocSource)
    (mimeType : Option String) : Option JsMime :=
  match mimeType with
  | some m => some (JsMime.str m)
  | none => inferMimeType up src

/-- `if (key === "pdf" && enableOCR) key = "pdf-ocr"`. -/
def ocrAdjust (k : RendererKey) (enableOCR : Bool) : RendererKey :=
  if k = RendererKey.pdf ∧ enableOCR = true then RendererKey.pdfOcr else k

/-- `EXT_TO_MIME[ext] ?? resolvedMime` (nullish coalescing: an inherited
value is not nullish and is kept). -/
def extMimeOr (ext : String) (resolvedMime : Option JsMime) : Option JsMime :=
  match EXT_TO_MIME ext with
  | JsLookup.own mm => some (JsMime.str mm)
  | JsLookup.inherited n => some (JsMime.protoVal n)
  | JsLookup.undef => resolvedMime

/-- The first guard of `getRendererKey`:
`if (resolvedMime && MIME_TO_RENDERER[resolvedMime])` — the lookup is only
reached for a truthy `resolvedMime`, and its own and inherited results are
truthy while `undefined` is falsy. -/
def mimeBranch (resolvedMime : Option JsMime) : JsLookup RendererKey :=
  match resolvedMime with
  | some rm => if rm.truthy then MIME_TO_RENDERER rm.asKey else JsLookup.undef
  | none => JsLookup.undef

/-- Shallow embedding of `getRendererKey` (src/FormatRouter.ts, lines
59–101) with prototype-chain-aware lookups, returning
`(rendererKey, mimeType)`.  A truthy inherited lookup result passes the
`if` guards and is returned as the renderer key (the `key === "pdf"` OCR
test is false for it, so no OCR swap happens). -/
def getRendererKey (up : String → Option String) (src : DocSource)
    (mimeType : Option String) (enableOCR : Bool) :
    JsRendererKey × Option JsMime :=
  let resolvedMime := resolveMime up src mimeType
  match mimeBranch resolvedMime with
  | JsLookup.own key => (JsRendererKey.key (ocrAdjust key enableOCR), resolvedMime)
  | JsLookup.inherited n => (JsRendererKey.protoFn n, resolvedMime)
  | JsLookup.undef =>
    match src with
    | DocSource.url s =>
        let ext := extCandidate up s
        if ext ≠ "" then
          match EXT_TO_RENDERER ext with
          | JsLookup.own key =>
              (JsRendererKey.key (ocrAdjust key enableOCR),
                extMimeOr ext resolvedMime)
          | JsLookup.inherited n =>
              (JsRendererKey.protoFn n, extMimeOr ext resolvedMime)
          | JsLookup.undef =>
              (JsRendererKey.key RendererKey.unsupported, resolvedMime)
        else (JsRendererKey.key RendererKey.unsupported, resolvedMime)
    | DocSource.blob t =>
        if t ≠ "" then
          match MIME_TO_RENDERER t with
          | JsLookup.own key =>
              (JsRendererKey.key (ocrAdjust key enableOCR),
                some (JsMime.str t))
          | JsLookup.inherited n =>
              (JsRendererKey.protoFn n, some (JsMime.str t))
          | JsLookup.undef =>
              (JsRendererKey.key RendererKey.unsupported, resolvedMime)
        else (JsRendererKey.key RendererKey.unsupported, resolvedMime)

/-- URL model for the C3 failing inputs: the pathnames `new URL` yields. -/
def upBug : String → Option String := fun s =>
  if s = "x" then some "/x"
  else if s = "a.constructor" then some "/a.constructor"
  else none

/-- C3 (code bug): the source declares `getRendererKey` to return a
`RendererKey` of the closed five-key union, and its test suite expects the
"unsupported" key for any unmapped MIME type; but object-literal indexing
consults the prototype chain, so with the explicit MIME hint "toString"
(or the URL extension "constructor") the truthy inherited
`Object.prototype` member passes the guard at FormatRouter.ts line 65
(resp. line 75) and is returned as the renderer key, escaping the closed
set and bypassing the "unsupported" fallback even though the tables' own
entries contain no such key. -/
theorem getRendererKey_prototype_chain_leak :
    getRendererKey upBug (DocSource.url "x") (some "toString") false =
      (JsRendererKey.protoFn "toString", some (JsMime.str "toString")) ∧
    getRendererKey upBug (DocSource.url "a.constructor") none false =
      (JsRendererKey.protoFn "constructor",
        some (JsMime.protoVal "constructor")) ∧
    MIME_TO_RENDERER_own "toString" = none ∧
    EXT_TO_RENDERER_own "constructor" = none ∧
    JsRendererKey.protoFn "toString" ∉
      [JsRendererKey.key RendererKey.pdf, JsRendererKey.key RendererKey.pdfOcr,
       JsRendererKey.key RendererKey.docx,
       JsRendererKey.key RendererKey.officePdf,
       JsRendererKey.key RendererKey.unsupported] :=
  ⟨by decide, by decide, by decide, by decide, by decide⟩

/-! ## Search match navigation (`src/renderers/PdfRenderer.tsx`, lines 331–343)

`nextMatch`/`prevMatch` act on the `searchMatches`/`searchIndex` state and
trigger `scrollToPage` on the newly active match. -/

structure SearchNav where
  searchMatches : List Nat
  searchIndex : Nat
  scrolledTo : Option Nat
deriving DecidableEq, Repr

/-- `nextMatch` (PdfRenderer.tsx lines 331–336): no-op on an empty match
list, otherwise advance the index circularly and scroll to that match. -/
def nextMatch (s : SearchNav) : SearchNav :=
  if s.searchMatches.length = 0 then s
  else
    let nxt := (s.searchIndex + 1) % s.searchMatches.length
    ⟨s.searchMatches, nxt, some (s.searchMatches.getD nxt 0)⟩

/-- `prevMatch` (PdfRenderer.tsx lines 338–343): no-op on an empty match
list, otherwise step the index back circularly (`(i − 1 + n) % n`) and
scroll to that match. -/
def prevMatch (s : SearchNav) : SearchNav :=
  if s.searchMatches.length = 0 then s
  else
    let prv := (s.searchIndex + s.searchMatches.length - 1) % s.searchMatches.length
    ⟨s.searchMatches, prv, some (s.searchMatches.getD prv 0)⟩

theorem nextMatch_matches (s : SearchNav) : (nextMatch s).searchMatches = s.searchMatches := by
  unfold nextMatch
  split <;> rfl

theorem nextMatch_index (s : SearchNav) (h : s.searchMatches.length ≠ 0) :
    (nextMatch s).searchIndex = (s.searchIndex + 1) % s.searchMatches.length := by
  unfold nextMatch
  rw [if_neg h]

theorem mod_succ_step (a n : Nat) : (a % n + 1) % n = (a + 1) % n := by
  conv_rhs => rw [Nat.add_mod]
  simp [Nat.mod_mod_of_dvd]

theorem nextMatch_iterate (s : SearchNav) (k : Nat) (h : 0 < s.searchMatches.length)
    (hi : s.searchIndex < s.searchMatches.length) :
    (nextMatch^[k] s).searchMatches = s.searchMatches ∧
    (nextMatch^[k] s).searchIndex = (s.searchIndex + k) % s.searchMatches.length := by
  induction k with
  | zero => simpa using (Nat.mod_eq_of_lt hi).symm
  | succ k ih =>
      obtain ⟨ihm, ihi⟩ := ih
      rw [Function.iterate_succ_apply']
      constructor
      · rw [nextMatch_matches, ihm]
      · rw [nextMatch_index _ (by rw [ihm]; omega), ihm, ihi, mod_succ_step,
          ← Nat.add_assoc]

/-- C5: with at least one match, `nextMatch` and `prevMatch` step the active
index circularly modulo the match count (so the index stays a valid index
into the match list, and both scroll to the newly active match's page);
composing `nextMatch` exactly `matchCount` times returns the index to its
original value; with zero matches both operations leave the state
unchanged. -/
theorem match_navigation_circular (s : SearchNav) (h : 0 < s.searchMatches.length)
    (hi : s.searchIndex < s.searchMatches.length) :
    (nextMatch s).searchIndex = (s.searchIndex + 1) % s.searchMatches.length ∧
    (prevMatch s).searchIndex = (s.searchIndex + s.searchMatches.length - 1) % s.searchMatches.length ∧
    (nextMatch s).searchIndex < s.searchMatches.length ∧
    (prevMatch s).searchIndex < s.searchMatches.length ∧
    (nextMatch s).searchMatches = s.searchMatches ∧
    (prevMatch s).searchMatches = s.searchMatches ∧
    (nextMatch s).scrolledTo = some (s.searchMatches.getD ((nextMatch s).searchIndex) 0) ∧
    (prevMatch s).scrolledTo = some (s.searchMatches.getD ((prevMatch s).searchIndex) 0) ∧
    (nextMatch^[s.searchMatches.length] s).searchIndex = s.searchIndex ∧
    (∀ t : SearchNav, t.searchMatches.length = 0 → nextMatch t = t ∧ prevMatch t = t) := by
  have hne : s.searchMatches.length ≠ 0 := Nat.pos_iff_ne_zero.mp h
  refine ⟨nextMatch_index s hne, ?_, ?_, ?_, nextMatch_matches s, ?_, ?_, ?_, ?_, ?_⟩
  · unfold prevMatch
    rw [if_neg hne]
  · rw [nextMatch_index s hne]
    exact Nat.mod_lt _ h
  · unfold prevMatch
    rw [if_neg hne]
    exact Nat.mod_lt _ h
  · unfold prevMatch
    split <;> rfl
  · unfold nextMatch
    rw [if_neg hne]
  · unfold prevMatch
    rw [if_neg hne]
  · obtain ⟨-, hidx⟩ := nextMatch_iterate s s.searchMatches.length h hi
    rw [hidx, Nat.add_mod_right, Nat.mod_eq_of_lt hi]
  · intro t ht
    unfold nextMatch prevMatch
    rw [if_pos ht, if_pos ht]
    exact ⟨rfl, rfl⟩

/-- Witness for C5 at a concrete three-match state. -/
theorem match_navigation_circular_witness :
    (nextMatch ⟨[2, 5, 9], 2, none⟩).searchIndex = 0 ∧
    (prevMatch ⟨[2, 5, 9], 0, none⟩).searchIndex = 2 ∧
    (nextMatch^[3] (⟨[2, 5, 9], 1, none⟩ : SearchNav)).searchIndex = 1 ∧
    nextMatch ⟨[], 0, none⟩ = ⟨[], 0, none⟩ := by
  obtain ⟨h1, -, -, -, -, -, -, -, -, -⟩ :=
    match_navigation_circular ⟨[2, 5, 9], 2, none⟩ (by decide) (by decide)
  obtain ⟨-, h2, -, -, -, -, -, -, -, -⟩ :=
    match_navigation_circular ⟨[2, 5, 9], 0, none⟩ (by decide) (by decide)
  obtain ⟨-, -, -, -, -, -, -, -, h3, hz⟩ :=
    match_navigation_circular ⟨[2, 5, 9], 1, none⟩ (by decide) (by decide)
  exact ⟨h1.trans (by decide), h2.trans (by decide), h3, (hz ⟨[], 0, none⟩ (by decide)).1⟩

/-! ## Zoom stepping (`src/renderers/PdfRenderer.tsx`, lines 412–426)

`handleZoomIn`/`handleZoomOut` step the custom zoom multiplier through the
preset list `[0.5, 0.75, 1, 1.25, 1.5, 2, 3]` with a `0.01` comparison
tolerance, falling back to ±`0.25` clamped to `[0.25, 5]`.  JavaScript
numbers are modelled as rationals. -/

def ZOOM_PRESETS : List ℚ := [1/2, 3/4, 1, 5/4, 3/2, 2, 3]

/-- `handleZoomIn` (PdfRenderer.tsx lines 412–418):
`[0.5,…,3].find(p => p > z + 0.01) ?? Math.min(z + 0.25, 5)`. -/
def handleZoomIn (z : ℚ) : ℚ :=
  match ZOOM_PRESETS.find? (fun p => decide (z + 1/100 < p)) with
  | some p => p
  | none => min (z + 1/4) 5

/-- `handleZoomOut` (PdfRenderer.tsx lines 420–426):
`[...presets].reverse().find(p => p < z - 0.01) ?? Math.max(z - 0.25, 0.25)`. -/
def handleZoomOut (z : ℚ) : ℚ :=
  match ZOOM_PRESETS.reverse.find? (fun p => decide (p < z - 1/100)) with
  | some p => p
  | none => max (z - 1/4) (1/4)

theorem handleZoomIn_eq (z : ℚ) :
    handleZoomIn z =
      if z + 1/100 < 1/2 then 1/2
      else if z + 1/100 < 3/4 then 3/4
      else if z + 1/100 < 1 then 1
      else if z + 1/100 < 5/4 then 5/4
      else if z + 1/100 < 3/2 then 3/2
      else if z + 1/100 < 2 then 2
      else if z + 1/100 < 3 then 3
      else min (z + 1/4) 5 := by
  unfold handleZoomIn ZOOM_PRESETS
  split_ifs with h1 h2 h3 h4 h5 h6 h7
  ·
    rw [List.find?_cons_of_pos _ (by simpa using h1)]
  ·
    rw [List.find?_cons_of_neg _ (by simpa using h1),
      List.find?_cons_of_pos _ (by simpa using h2)]
  ·
    rw [List.find?_cons_of_neg _ (by simpa using h1),
      List.find?_cons_of_neg _ (by simpa using h2),
      List.find?_cons_of_pos _ (by simpa using h3)]
  ·
    rw [List.find?_cons_of_neg _ (by simpa using h1),
      List.find?_cons_of_neg _ (by simpa using h2),
      List.find?_cons_of_neg _ (by simpa using h3),
      List.find?_cons_of_pos _ (by simpa using h4)]
  ·
    rw [List.find?_cons_of_neg _ (by simpa using h1),
      List.find?_cons_of_neg _ (by simpa using h2),
      List.find?_cons_of_neg _ (by simpa using h3),
      List.find?_cons_of_neg _ (by simpa using h4),
      List.find?_cons_of_pos _ (by simpa using h5)]
  ·
    rw [List.find?_cons_of_neg _ (by simpa using h1),
      List.find?_cons_of_neg _ (by simpa using h2),
      List.find?_cons_of_neg _ (by simpa using h3),
      List.find?_cons_of_neg _ (by simpa using h4),
      List.find?_cons_of_neg _ (by simpa using h5),
      List.find?_cons_of_pos _ (by simpa using h6)]
  ·
    rw [List.find?_cons_of_neg _ (by simpa using h1),
      List.find?_cons_of_neg _ (by simpa using h2),
      List.find?_cons_of_neg _ (by simpa using h3),
      List.find?_cons_of_neg _ (by simpa using h4),
      List.find?_cons_of_neg _ (by simpa using h5),
      List.find?_cons_of_neg _ (by simpa using h6),
      List.find?_cons_of_pos _ (by simpa using h7)]
  ·
    rw [List.find?_cons_of_neg _ (by simpa using h1),
      List.find?_cons_of_neg _ (by simpa using h2),
      List.find?_cons_of_neg _ (by simpa using h3),
      List.find?_cons_of_neg _ (by simpa using h4),
      List.find?_cons_of_neg _ (by simpa using h5),
      List.find?_cons_of_neg _ (by simpa using h6),
      List.find?_cons_of_neg _ (by simpa using h7),
      List.find?_nil]

theorem handleZoomOut_eq (z : ℚ) :
    handleZoomOut z =
      if (3 : ℚ) < z - 1/100 then 3
      else if (2 : ℚ) < z - 1/100 then 2
      else if (3/2 : ℚ) < z - 1/100 then 3/2
      else if (5/4 : ℚ) < z - 1/100 then 5/4
      else if (1 : ℚ) < z - 1/100 then 1
      else if (3/4 : ℚ) < z - 1/100 then 3/4
      else if (1/2 : ℚ) < z - 1/100 then 1/2
      else max (z - 1/4) (1/4) := by
  unfold handleZoomOut ZOOM_PRESETS
  have hrev : ([1/2, 3/4, 1, 5/4, 3/2, 2, 3] : List ℚ).reverse = [3, 2, 3/2, 5/4, 1, 3/4, 1/2] := rfl
  rw [hrev]
  split_ifs with h1 h2 h3 h4 h5 h6 h7
  ·
    rw [List.find?_cons_of_pos _ (by simpa using h1)]
  ·
    rw [List.find?_cons_of_neg _ (by simpa using h1),
      List.find?_cons_of_pos _ (by simpa using h2)]
  ·
    rw [List.find?_cons_of_neg _ (by simpa using h1),
      List.find?_cons_of_neg _ (by simpa using h2),
      List.find?_cons_of_pos _ (by simpa using h3)]
  ·
    rw [List.find?_cons_of_neg _ (by simpa using h1),
      List.find?_cons_of_neg _ (by simpa using h2),
      List.find?_cons_of_neg _ (by simpa using h3),
      List.find?_cons_of_pos _ (by simpa using h4)]
  ·
    rw [List.find?_cons_of_neg _ (by simpa using h1),
      List.find?_cons_of_neg _ (by simpa using h2),
      List.find?_cons_of_neg _ (by simpa using h3),
      List.find?_cons_of_neg _ (by simpa using h4),
      List.find?_cons_of_pos _ (by simpa using h5)]
  ·
    rw [List.find?_cons_of_neg _ (by simpa using h1),
      List.find?_cons_of_neg _ (by simpa using h2),
      List.find?_cons_of_neg _ (by simpa using h3),
      List.find?_cons_of_neg _ (by simpa using h4),
      List.find?_cons_of_neg _ (by simpa using h5),
      List.find?_cons_of_pos _ (by simpa using h6)]
  ·
    rw [List.find?_cons_of_neg _ (by simpa using h1),
      List.find?_cons_of_neg _ (by simpa using h2),
      List.find?_cons_of_neg _ (by simpa using h3),
      List.find?_cons_of_neg _ (by simpa using h4),
      List.find?_cons_of_neg _ (by simpa using h5),
      List.find?_cons_of_neg _ (by simpa using h6),
      List.find?_cons_of_pos _ (by simpa using h7)]
  ·
    rw [List.find?_cons_of_neg _ (by simpa using h1),
      List.find?_cons_of_neg _ (by simpa using h2),
      List.find?_cons_of_neg _ (by simpa using h3),
      List.find?_cons_of_neg _ (by simpa using h4),
      List.find?_cons_of_neg _ (by simpa using h5),
      List.find?_cons_of_neg _ (by simpa using h6),
      List.find?_cons_of_neg _ (by simpa using h7),
      List.find?_nil]

/-- Counterexample to C6 as stated: at zoom `z = 0.99` (inside `[0.25, 5]`)
the smallest preset strictly greater than `z` is `1`, yet `handleZoomIn`
returns `1.25`, because the code compares against `z + 0.01`, not `z`. -/
theorem handleZoomIn_not_least_preset_above_z :
    (99/100 : ℚ) ∈ Set.Icc (1/4 : ℚ) 5 ∧
    (1 : ℚ) ∈ ZOOM_PRESETS ∧ (99/100 : ℚ) < 1 ∧
    handleZoomIn (99/100) = 5/4 ∧ handleZoomIn (99/100) ≠ 1 := by
  refine ⟨by constructor <;> norm_num, by norm_num [ZOOM_PRESETS], by norm_num, ?_, ?_⟩
  · rw [handleZoomIn_eq]
    norm_num
  · rw [handleZoomIn_eq]
    norm_num

/-- C6 (amended): with a `0.01` comparison tolerance — zoom-in returns the
smallest preset strictly greater than `z + 0.01` when one exists and
otherwise `min(z + 0.25, 5)`; zoom-out returns the largest preset strictly
less than `z − 0.01` when one exists and otherwise `max(z − 0.25, 0.25)`;
hence for `z ∈ [0.25, 5]` zoom-in never decreases and zoom-out never
increases the multiplier and both results stay within `[0.25, 5]`. -/
theorem zoom_step_tolerance_monotone_bounded (z : ℚ)
    (hz1 : 1/4 ≤ z) (hz2 : z ≤ 5) :
    (z ≤ handleZoomIn z ∧ 1/4 ≤ handleZoomIn z ∧ handleZoomIn z ≤ 5) ∧
    (handleZoomOut z ≤ z ∧ 1/4 ≤ handleZoomOut z ∧ handleZoomOut z ≤ 5) ∧
    ((∃ p ∈ ZOOM_PRESETS, z + 1/100 < p) →
      handleZoomIn z ∈ ZOOM_PRESETS ∧ z + 1/100 < handleZoomIn z) ∧
    (∀ p ∈ ZOOM_PRESETS, z + 1/100 < p → handleZoomIn z ≤ p) ∧
    ((∀ p ∈ ZOOM_PRESETS, ¬ z + 1/100 < p) → handleZoomIn z = min (z + 1/4) 5) ∧
    ((∃ p ∈ ZOOM_PRESETS, p < z - 1/100) →
      handleZoomOut z ∈ ZOOM_PRESETS ∧ handleZoomOut z < z - 1/100) ∧
    (∀ p ∈ ZOOM_PRESETS, p < z - 1/100 → p ≤ handleZoomOut z) ∧
    ((∀ p ∈ ZOOM_PRESETS, ¬ p < z - 1/100) →
      handleZoomOut z = max (z - 1/4) (1/4)) := by
  refine ⟨?_, ?_, ?_, ?_, ?_, ?_, ?_, ?_⟩
  · rw [handleZoomIn_eq]
    split_ifs <;>
      first
        | exact ⟨by linarith, by linarith, by linarith⟩
        | exact ⟨le_min (by linarith) hz2, le_min (by linarith) (by norm_num),
            min_le_right _ _⟩
  · rw [handleZoomOut_eq]
    split_ifs <;>
      first
        | exact ⟨by linarith, by linarith, by linarith⟩
        | exact ⟨max_le (by linarith) hz1, le_max_right _ _,
            max_le (by linarith) (by norm_num)⟩
  · rintro ⟨p, hp, hcond⟩
    rw [handleZoomIn_eq]
    simp only [ZOOM_PRESETS, List.mem_cons, List.not_mem_nil, or_false] at hp
    split_ifs <;>
      first
        | exact ⟨by norm_num [ZOOM_PRESETS], by linarith⟩
        | (exfalso; rcases hp with rfl | rfl | rfl | rfl | rfl | rfl | rfl <;> linarith)
  · intro p hp hcond
    rw [handleZoomIn_eq]
    simp only [ZOOM_PRESETS, List.mem_cons, List.not_mem_nil, or_false] at hp
    split_ifs <;> rcases hp with rfl | rfl | rfl | rfl | rfl | rfl | rfl <;> linarith
  · intro hall
    rw [handleZoomIn_eq]
    split_ifs with h1 h2 h3 h4 h5 h6 h7
    · exact absurd h1 (hall (1/2) (by norm_num [ZOOM_PRESETS]))
    · exact absurd h2 (hall (3/4) (by norm_num [ZOOM_PRESETS]))
    · exact absurd h3 (hall 1 (by norm_num [ZOOM_PRESETS]))
    · exact absurd h4 (hall (5/4) (by norm_num [ZOOM_PRESETS]))
    · exact absurd h5 (hall (3/2) (by norm_num [ZOOM_PRESETS]))
    · exact absurd h6 (hall 2 (by norm_num [ZOOM_PRESETS]))
    · exact absurd h7 (hall 3 (by norm_num [ZOOM_PRESETS]))
    · rfl
  · rintro ⟨p, hp, hcond⟩
    rw [handleZoomOut_eq]
    simp only [ZOOM_PRESETS, List.mem_cons, List.not_mem_nil, or_false] at hp
    split_ifs <;>
      first
        | exact ⟨by norm_num [ZOOM_PRESETS], by linarith⟩
        | (exfalso; rcases hp with rfl | rfl | rfl | rfl | rfl | rfl | rfl <;> linarith)
  · intro p hp hcond
    rw [handleZoomOut_eq]
    simp only [ZOOM_PRESETS, List.mem_cons, List.not_mem_nil, or_false] at hp
    split_ifs <;> rcases hp with rfl | rfl | rfl | rfl | rfl | rfl | rfl <;> linarith
  · intro hall
    rw [handleZoomOut_eq]
    split_ifs with h1 h2 h3 h4 h5 h6 h7
    · exact absurd h1 (hall 3 (by norm_num [ZOOM_PRESETS]))
    · exact absurd h2 (hall 2 (by norm_num [ZOOM_PRESETS]))
    · exact absurd h3 (hall (3/2) (by norm_num [ZOOM_PRESETS]))
    · exact absurd h4 (hall (5/4) (by norm_num [ZOOM_PRESETS]))
    · exact absurd h5 (hall 1 (by norm_num [ZOOM_PRESETS]))
    · exact absurd h6 (hall (3/4) (by norm_num [ZOOM_PRESETS]))
    · exact absurd h7 (hall (1/2) (by norm_num [ZOOM_PRESETS]))
    · rfl

/-- Witness for C6 (amended) at `z = 1` (the 100% → 125% scenario). -/
theorem zoom_step_tolerance_monotone_bounded_witness :
    handleZoomIn 1 = 5/4 ∧ handleZoomOut 1 = 3/4 ∧
    (1 : ℚ) ≤ handleZoomIn 1 ∧ handleZoomIn 1 ≤ 5 ∧
    handleZoomOut 1 ≤ 1 ∧ 1/4 ≤ handleZoomOut 1 := by
  obtain ⟨⟨hub1, -, hub2⟩, ⟨hlb1, hlb2, -⟩, -, -, -, -, -, -⟩ :=
    zoom_step_tolerance_monotone_bounded 1 (by norm_num) (by norm_num)
  refine ⟨?_, ?_, hub1, hub2, hlb1, hlb2⟩
  · rw [handleZoomIn_eq]
    norm_num
  · rw [handleZoomOut_eq]
    norm_num

/-! ## Effective zoom (`src/renderers/PdfRenderer.tsx`, lines 283–289)

`effectiveZoom` derives the zoom multiplier: in `pageFit` mode with a
positive observed container width it is `min((width − 48) / 794, 2)`
(48px total padding, A4 reference width 794px); otherwise it is the stored
custom multiplier. -/

inductive ZoomMode
  | custom
  | pageFit
deriving DecidableEq, Repr

/-- `effectiveZoom` (PdfRenderer.tsx lines 283–289). -/
def effectiveZoom (zoomMode : ZoomMode) (containerWidth zoom : ℚ) : ℚ :=
  if zoomMode = ZoomMode.pageFit ∧ 0 < containerWidth then
    min ((containerWidth - 48) / 794) 2
  else zoom

/-- Counterexample to C7 as stated: at the positive observed container
width 40 (less than the 48px padding), the page-fit effective zoom is
negative, not strictly positive. -/
theorem effectiveZoom_not_positive_at_small_width :
    (0 : ℚ) < 40 ∧
    ¬ 0 < effectiveZoom ZoomMode.pageFit 40 1 ∧
    effectiveZoom ZoomMode.pageFit 40 1 = -4/397 := by
  refine ⟨by norm_num, ?_, ?_⟩ <;>
    · unfold effectiveZoom
      rw [if_pos ⟨rfl, by norm_num⟩]
      rw [min_eq_left (by norm_num)]
      norm_num

/-- C7 (amended): in custom mode the effective zoom is the stored
multiplier, which stays strictly positive under zoom stepping from a
positive value (zoom-out even clamps at 0.25 unconditionally); in page-fit
mode the derived value is `min((width − 48)/794, 2)`, which is strictly
positive exactly for container widths above the 48px padding (not for
every positive width) and never exceeds the upper bound 2. -/
theorem effectiveZoom_amended (w z : ℚ) :
    effectiveZoom ZoomMode.custom w z = z ∧
    (0 < z → 0 < handleZoomIn z) ∧
    (1/4 ≤ handleZoomOut z) ∧
    (48 < w → 0 < effectiveZoom ZoomMode.pageFit w z ∧
      effectiveZoom ZoomMode.pageFit w z ≤ 2) ∧
    (0 < w → w ≤ 48 → effectiveZoom ZoomMode.pageFit w z ≤ 0) := by
  refine ⟨?_, ?_, ?_, ?_, ?_⟩
  · unfold effectiveZoom
    simp
  · intro hz
    rw [handleZoomIn_eq]
    split_ifs <;>
      first
        | exact lt_min (by linarith) (by norm_num)
        | norm_num
  · rw [handleZoomOut_eq]
    split_ifs <;>
      first
        | norm_num
        | exact le_max_right _ _
  · intro hw
    unfold effectiveZoom
    rw [if_pos ⟨rfl, by linarith⟩]
    exact ⟨lt_min (div_pos (by linarith) (by norm_num)) (by norm_num),
      min_le_right _ _⟩
  · intro hw0 hw48
    unfold effectiveZoom
    rw [if_pos ⟨rfl, hw0⟩]
    refine (min_le_left _ _).trans ?_
    rw [div_le_iff (by norm_num : (0:ℚ) < 794)]
    simpa using (by linarith : w - 48 ≤ 0)

/-- Witness for C7 (amended) at container width 100 and zoom 1. -/
theorem effectiveZoom_amended_witness :
    effectiveZoom ZoomMode.custom 100 1 = 1 ∧
    (0 : ℚ) < handleZoomIn 1 ∧
    (1/4 : ℚ) ≤ handleZoomOut 1 ∧
    (0 : ℚ) < effectiveZoom ZoomMode.pageFit 100 1 ∧
    effectiveZoom ZoomMode.pageFit 40 1 ≤ 0 := by
  obtain ⟨hc, hin, hout, hfit, -⟩ := effectiveZoom_amended 100 1
  obtain ⟨-, -, -, -, hneg⟩ := effectiveZoom_amended 40 1
  exact ⟨hc, hin (by norm_num), hout,
    (hfit (by norm_num)).1, hneg (by norm_num) (by norm_num)⟩

/-! ## External link interception (`src/renderers/PdfRenderer.tsx`,
lines 184–194 and 300–315)

`new URL(href, window.location.href)` is modelled by an abstract function
`urlProtocol : String → String → Option String`: `urlProtocol href base`
is the constructed URL's `protocol` (scheme plus colon) on success, and
`none` when the constructor throws — which also happens for scheme-bearing
malformed hrefs such as `"http://"` (missing host), taken by the source's
catch branch.  The theorems quantify over every such function, so they
hold for any URL implementation; concrete instances record real
constructor outcomes. -/

def isSchemeChar (c : Char) : Bool :=
  c.isAlphanum || c = '+' || c = '-' || c = '.'

def schemeOfAux : List Char → List Char → Option String
  | [], _ => none
  | c :: rest, acc =>
      if c = ':' then some (String.mk (acc.reverse.map Char.toLower))
      else if isSchemeChar c then schemeOfAux rest (c :: acc)
      else none

/-- The (lowercased) syntactic scheme of a URL reference, without the
colon; `none` when the reference has no leading scheme (it is relative).
Used only to state the spec's words for C9. -/
def schemeOf (href : String) : Option String :=
  match href.data with
  | [] => none
  | c :: rest => if c.isAlpha then schemeOfAux rest [c] else none

/-- `isExternalLinkHref` (PdfRenderer.tsx lines 186–194): an empty href is
not external; a throwing `new URL` (the catch branch) makes it not
external; otherwise it is membership of the resolved protocol in
`EXTERNAL_LINK_PROTOCOLS = {http:, https:, mailto:}`. -/
def isExternalLinkHref (urlProtocol : String → String → Option String)
    (base href : String) : Bool :=
  if href = "" then false
  else
    match urlProtocol href base with
    | some p => decide (p = "http:" ∨ p = "https:" ∨ p = "mailto:")
    | none => false

/-- The click listener on the viewer root (PdfRenderer.tsx lines 300–315):
given the closest anchor's `href` attribute (`none` when the click has no
anchor ancestor, `getAttribute("href") || ""` otherwise), decide whether
default navigation is suppressed and a new browsing context is opened. -/
def clickIntercepted (urlProtocol : String → String → Option String)
    (base : String) (anchorHref : Option String) : Bool :=
  match anchorHref with
  | none => false
  | some href => isExternalLinkHref urlProtocol base href

/-- Modelled from the spec's words for C9: "the href resolves to an
absolute reference with an external scheme" — the href itself is an
absolute reference carrying an external scheme. -/
def specExternalAbsoluteHref (href : String) : Bool :=
  match schemeOf href with
  | some sch => decide (sch = "http" ∨ sch = "https" ∨ sch = "mailto")
  | none => false

/-- The protocols `new URL(href, base)` yields for the C9 example inputs
(`none` = the constructor throws): a fragment-only or path-relative
reference resolves against the page URL and inherits its scheme, an
absolute `mailto:` or `https:` reference keeps its own scheme, and the
malformed `"http://"` (missing host) throws. -/
def urlProtocolW : String → String → Option String := fun href base =>
  if base = "https://example.com/viewer" then
    if href = "#outline-target" then some "https:"
    else if href = "relative/page" then some "https:"
    else if href = "mailto:user@example.com" then some "mailto:"
    else if href = "https://other.example/x" then some "https:"
    else none
  else none

/-- Counterexample to C9 as stated: on a viewer hosted at an `https` page,
the document-internal anchor href `#outline-target` is not an absolute
external reference, yet the click listener intercepts it — `new URL`
resolves the fragment against the page URL to an `https:` absolute URL —
so it does not fall through to default in-document navigation. -/
theorem internal_anchor_intercepted_counterexample :
    clickIntercepted urlProtocolW "https://example.com/viewer"
      (some "#outline-target") = true ∧
    specExternalAbsoluteHref "#outline-target" = false := by
  constructor <;> rfl

/-- C9 (amended): for every URL implementation, a click is intercepted iff
it hits an anchor whose href is non-empty and whose resolution
`new URL(href, pageUrl)` succeeds with an external protocol (`http:`,
`https:` or `mailto:`).  Whether the href itself carries a scheme is
irrelevant: a relative or fragment href that resolves to the page's
`http(s)` scheme is intercepted, while a click on no anchor, an href whose
construction throws (e.g. the malformed `"http://"`), or one resolving to
any other protocol falls through to default navigation. -/
theorem link_interception_amended
    (urlProtocol : String → String → Option String) (base href : String) :
    clickIntercepted urlProtocol base none = false ∧
    (clickIntercepted urlProtocol base (some href) = true ↔
      href ≠ "" ∧ ∃ p, urlProtocol href base = some p ∧
        (p = "http:" ∨ p = "https:" ∨ p = "mailto:")) ∧
    (urlProtocol href base = none →
      clickIntercepted urlProtocol base (some href) = false) ∧
    (∀ p, urlProtocol href base = some p →
      ¬ (p = "http:" ∨ p = "https:" ∨ p = "mailto:") →
      clickIntercepted urlProtocol base (some href) = false) := by
  refine ⟨rfl, ?_, ?_, ?_⟩
  · by_cases h : href = ""
    · simp [clickIntercepted, isExternalLinkHref, h]
    · simp only [clickIntercepted, isExternalLinkHref, if_neg h]
      cases hp : urlProtocol href base with
      | none => simp [h, hp]
      | some p => simp [h, hp]
  · intro hthrow
    by_cases h : href = ""
    · simp [clickIntercepted, isExternalLinkHref, h]
    · simp [clickIntercepted, isExternalLinkHref, if_neg h, hthrow]
  · intro p hp hnot
    by_cases h : href = ""
    · simp [clickIntercepted, isExternalLinkHref, h]
    · simp [clickIntercepted, isExternalLinkHref, if_neg h, hp, hnot]

/-- Witness for C9 (amended) at the recorded URL outcomes `urlProtocolW`:
no anchor is not intercepted; an absolute `mailto:` href and a
path-relative href on the `https` page are intercepted; the malformed
`"http://"`, whose construction throws, is not. -/
theorem link_interception_amended_witness :
    clickIntercepted urlProtocolW "https://example.com/viewer" none = false ∧
    clickIntercepted urlProtocolW "https://example.com/viewer"
      (some "mailto:user@example.com") = true ∧
    clickIntercepted urlProtocolW "https://example.com/viewer"
      (some "relative/page") = true ∧
    clickIntercepted urlProtocolW "https://example.com/viewer"
      (some "http://") = false := by
  obtain ⟨h1, h2, -, -⟩ := link_interception_amended urlProtocolW
    "https://example.com/viewer" "mailto:user@example.com"
  obtain ⟨-, h3, -, -⟩ := link_interception_amended urlProtocolW
    "https://example.com/viewer" "relative/page"
  obtain ⟨-, -, h4, -⟩ := link_interception_amended urlProtocolW
    "https://example.com/viewer" "http://"
  refine ⟨h1, ?_, ?_, ?_⟩
  · exact h2.mpr ⟨by decide, "mailto:", by decide, Or.inr (Or.inr rfl)⟩
  · exact h3.mpr ⟨by decide, "https:", by decide, Or.inr (Or.inl rfl)⟩
  · exact h4 (by decide)

/-! ## Search effect (`src/renderers/PdfRenderer.tsx`, lines 494–525)

The search `useEffect` normalizes the query (`trim().toLowerCase()`),
clears the matches synchronously when the normalized query is empty or no
document/pages are available, and otherwise starts an asynchronous run that
extracts text page by page in ascending order and finally commits the match
list — unless the run's captured `cancelled` flag was set by the cleanup of
a newer effect run.  A page whose `getPage`/`getTextContent` promise
rejects makes the whole async run reject (there is no try/catch around the
loop), so such a run never reaches its commit. -/

/-- `trim()` (ASCII whitespace). -/
def trimStr (s : String) : String :=
  String.mk (((s.data.dropWhile Char.isWhitespace).reverse.dropWhile
    Char.isWhitespace).reverse)

/-- The `str` fields of `textContent.items` of one page (`item.str ?? ""`
is part of the item model). -/
abbrev PageText := List String

/-- A document as observed by the search loop: for each page in ascending
order, its extracted text items, or `none` when text extraction rejects
for that page. -/
abbrev SearchDoc := List (Option PageText)

/-- `items.map(i => i.str ?? "").join(" ")`. -/
def joinItemsWithSpaces : PageText → String
  | [] => ""
  | [s] => s
  | s :: rest => s ++ " " ++ joinItemsWithSpaces rest

/-- One page's match test (PdfRenderer.tsx lines 508–512): either the
separator-less join or the single-space join of its items, lowercased,
contains the (lowercased) query. -/
def pageMatches (query : String) (items : PageText) : Bool :=
  decide (strContains (toLowerStr (String.join items)) query) ||
  decide (strContains (toLowerStr (joinItemsWithSpaces items)) query)

/-- The per-page loop of the async search run, scanning pages `n, n+1, …`
in ascending order and accumulating matching page numbers; a rejected
extraction (a `none` page) rejects the whole run (`none`), so not even the
matches of already-scanned pages survive. -/
def runSearch (query : String) : SearchDoc → Nat → Option (List Nat)
  | [], _ => some []
  | none :: _, _ => none
  | some items :: rest, n =>
      match runSearch query rest (n + 1) with
      | none => none
      | some ms => some (if pageMatches query items then n :: ms else ms)

theorem runSearch_sorted_bounds (query : String) (doc : SearchDoc) :
    ∀ (n : Nat) (ms : List Nat), runSearch query doc n = some ms →
      List.Sorted (· < ·) ms ∧ ∀ p ∈ ms, n ≤ p ∧ p < n + doc.length := by
  induction doc with
  | nil =>
      intro n ms h
      obtain rfl : ([] : List Nat) = ms := Option.some.inj h
      simp
  | cons page rest ih =>
      intro n ms h
      cases page with
      | none => exact Option.noConfusion h
      | some items =>
          rw [runSearch] at h
          cases hrest : runSearch query rest (n + 1) with
          | none => rw [hrest] at h; exact Option.noConfusion h
          | some ms' =>
              rw [hrest] at h
              obtain rfl := Option.some.inj h
              obtain ⟨hsorted, hbounds⟩ := ih (n + 1) ms' hrest
              by_cases hm : pageMatches query items = true
              · rw [if_pos hm]
                refine ⟨List.sorted_cons.mpr ⟨?_, hsorted⟩, ?_⟩
                · intro p hp
                  exact Nat.lt_of_lt_of_le (Nat.lt_succ_self n) (hbounds p hp).1
                · intro p hp
                  rcases List.mem_cons.mp hp with rfl | hp'
                  · simp
                  · obtain ⟨h1, h2⟩ := hbounds p hp'
                    constructor
                    · omega
                    · simpa [Nat.add_comm, Nat.add_assoc, Nat.add_left_comm]
                        using h2
              · rw [if_neg hm]
                refine ⟨hsorted, ?_⟩
                intro p hp
                obtain ⟨h1, h2⟩ := hbounds p hp
                constructor
                · omega
                · simp only [List.length_cons]
                  omega

/-- The viewer's search-related state, together with the bookkeeping of the
effect lifecycle: `gen` counts the effect runs started so far (the cleanup
of run `g` sets its `cancelled` flag exactly when run `g+1` starts, so run
`g` is uncancelled iff `g = gen`); `started` records the asynchronous runs
launched so far with their normalized queries; `committedGen` records which
run committed the currently displayed matches (`none` after a synchronous
clear). -/
structure SearchEffectState where
  gen : Nat
  started : List (Nat × String)
  searchMatches : List Nat
  searchIndex : Nat
  committedGen : Option Nat
  scrolledTo : Option Nat
deriving DecidableEq, Repr

def initialSearchState : SearchEffectState := ⟨0, [], [], 0, none, none⟩

/-- A query change (the search effect re-runs): the previous run's cleanup
fires (generation bump = its `cancelled` flag becomes true), then either
the matches are cleared synchronously (empty normalized query or no
pages), or a new asynchronous extraction run is started. -/
def setQuery (doc : SearchDoc) (s : SearchEffectState) (raw : String) :
    SearchEffectState :=
  if toLowerStr (trimStr raw) = "" ∨ doc.length = 0 then
    ⟨s.gen + 1, s.started, [], 0, none, s.scrolledTo⟩
  else
    ⟨s.gen + 1, (s.gen + 1, toLowerStr (trimStr raw)) :: s.started,
      s.searchMatches, s.searchIndex, s.committedGen, s.scrolledTo⟩

/-- `if (matches.length > 0) scrollToPage(matches[0])`: the scroll target
after a commit. -/
def firstMatchScroll (s : SearchEffectState) : List Nat → Option Nat
  | [] => s.scrolledTo
  | m :: _ => some m

/-- Arrival of async run `(g, q)`'s completion: its captured `cancelled`
flag is true iff a newer effect run has started (`g ≠ gen`), in which case
nothing is published; an uncancelled run whose extraction succeeded commits
its match list, resets the active index to 0 and scrolls to the first
match; a run whose extraction rejected commits nothing. -/
def finishRun (doc : SearchDoc) (s : SearchEffectState) (g : Nat)
    (q : String) : SearchEffectState :=
  if g = s.gen then
    match runSearch q doc 1 with
    | none => s
    | some ms => ⟨s.gen, s.started, ms, 0, some g, firstMatchScroll s ms⟩
  else s

/-- The states a mounted viewer's search state can reach: query changes and
completions of previously started runs, in any interleaving. -/
inductive SearchReachable (doc : SearchDoc) : SearchEffectState → Prop
  | init : SearchReachable doc initialSearchState
  | query (s : SearchEffectState) (raw : String) :
      SearchReachable doc s → SearchReachable doc (setQuery doc s raw)
  | finish (s : SearchEffectState) (g : Nat) (q : String) :
      SearchReachable doc s → (g, q) ∈ s.started →
      SearchReachable doc (finishRun doc s g q)

theorem setQuery_clear (doc : SearchDoc) (s : SearchEffectState) (raw : String)
    (h : toLowerStr (trimStr raw) = "" ∨ doc.length = 0) :
    setQuery doc s raw = ⟨s.gen + 1, s.started, [], 0, none, s.scrolledTo⟩ := by
  unfold setQuery
  rw [if_pos h]

theorem setQuery_start (doc : SearchDoc) (s : SearchEffectState) (raw : String)
    (h : ¬ (toLowerStr (trimStr raw) = "" ∨ doc.length = 0)) :
    setQuery doc s raw =
      ⟨s.gen + 1, (s.gen + 1, toLowerStr (trimStr raw)) :: s.started,
        s.searchMatches, s.searchIndex, s.committedGen, s.scrolledTo⟩ := by
  unfold setQuery
  rw [if_neg h]

theorem finishRun_stale (doc : SearchDoc) (s : SearchEffectState) (g : Nat)
    (q : String) (h : g ≠ s.gen) : finishRun doc s g q = s := by
  unfold finishRun
  rw [if_neg h]

theorem finishRun_reject (doc : SearchDoc) (s : SearchEffectState) (g : Nat)
    (q : String) (hg : g = s.gen) (h : runSearch q doc 1 = none) :
    finishRun doc s g q = s := by
  unfold finishRun
  rw [if_pos hg, h]

theorem finishRun_commit (doc : SearchDoc) (s : SearchEffectState) (g : Nat)
    (q : String) (ms : List Nat) (hg : g = s.gen)
    (h : runSearch q doc 1 = some ms) :
    finishRun doc s g q =
      ⟨s.gen, s.started, ms, 0, some g, firstMatchScroll s ms⟩ := by
  unfold finishRun
  rw [if_pos hg]
  cases hrun : runSearch q doc 1 with
  | none => rw [hrun] at h; exact Option.noConfusion h
  | some ms2 =>
      obtain rfl : ms2 = ms := Option.some.inj (hrun.symm.trans h)
      rfl

theorem reachable_committed (doc : SearchDoc) (s : SearchEffectState)
    (h : SearchReachable doc s) :
    ∀ g, s.committedGen = some g →
      ∃ q, (g, q) ∈ s.started ∧ runSearch q doc 1 = some s.searchMatches := by
  induction h with
  | init => intro g hg; exact Option.noConfusion hg
  | query s raw hs ih =>
      intro g hg
      by_cases hcl : toLowerStr (trimStr raw) = "" ∨ doc.length = 0
      · rw [setQuery_clear doc s raw hcl] at hg
        exact Option.noConfusion hg
      · rw [setQuery_start doc s raw hcl] at hg ⊢
        obtain ⟨q, hmem, hrun⟩ := ih g hg
        exact ⟨q, List.mem_cons_of_mem _ hmem, hrun⟩
  | finish s g0 q0 hs hmem ih =>
      intro g hg
      by_cases hgen : g0 = s.gen
      · cases hrun : runSearch q0 doc 1 with
        | none =>
            rw [finishRun_reject doc s g0 q0 hgen hrun] at hg ⊢
            exact ih g hg
        | some ms =>
            rw [finishRun_commit doc s g0 q0 ms hgen hrun] at hg ⊢
            obtain rfl : g0 = g := Option.some.inj hg
            exact ⟨q0, hmem, hrun⟩
      · rw [finishRun_stale doc s g0 q0 hgen] at hg ⊢
        exact ih g hg

theorem reachable_matches_sorted (doc : SearchDoc) (s : SearchEffectState)
    (h : SearchReachable doc s) :
    List.Sorted (· < ·) s.searchMatches ∧ s.searchMatches.Nodup ∧
    ∀ p ∈ s.searchMatches, 1 ≤ p ∧ p ≤ doc.length := by
  induction h with
  | init => simp [initialSearchState]
  | query s raw hs ih =>
      by_cases hcl : toLowerStr (trimStr raw) = "" ∨ doc.length = 0
      · rw [setQuery_clear doc s raw hcl]
        simp
      · rw [setQuery_start doc s raw hcl]
        exact ih
  | finish s g q hs hmem ih =>
      by_cases hgen : g = s.gen
      · cases hrun : runSearch q doc 1 with
        | none =>
            rw [finishRun_reject doc s g q hgen hrun]
            exact ih
        | some ms =>
            rw [finishRun_commit doc s g q ms hgen hrun]
            obtain ⟨hsorted, hbounds⟩ :=
              runSearch_sorted_bounds q doc 1 ms hrun
            refine ⟨hsorted, hsorted.nodup, ?_⟩
            intro p hp
            obtain ⟨h1, h2⟩ := hbounds p hp
            omega
      · rw [finishRun_stale doc s g q hgen]
        exact ih

/-- C1: for a mounted viewer, a search run superseded by a newer query
(its `cancelled` flag set, `g ≠ gen`) publishes nothing on completion —
the state is unchanged, not even partial results appear; only the most
recently started run (`g = gen`) commits on completion, publishing its
match list, resetting the active index to 0 and scrolling to its first
match; and whatever is committed in any reachable state came from a run
that was the newest at its completion. -/
theorem search_last_run_wins (doc : SearchDoc) :
    (∀ (s : SearchEffectState) (g : Nat) (q : String),
      SearchReachable doc s → (g, q) ∈ s.started → g ≠ s.gen →
      finishRun doc s g q = s) ∧
    (∀ (s : SearchEffectState) (q : String) (ms : List Nat),
      runSearch q doc 1 = some ms →
      (finishRun doc s s.gen q).searchMatches = ms ∧
      (finishRun doc s s.gen q).searchIndex = 0 ∧
      (finishRun doc s s.gen q).committedGen = some s.gen ∧
      (∀ m rest, ms = m :: rest →
        (finishRun doc s s.gen q).scrolledTo = some m)) ∧
    (∀ (s : SearchEffectState) (g : Nat),
      SearchReachable doc s → s.committedGen = some g →
      ∃ q, (g, q) ∈ s.started ∧
        runSearch q doc 1 = some s.searchMatches) := by
  refine ⟨?_, ?_, ?_⟩
  · intro s g q _ _ hne
    exact finishRun_stale doc s g q hne
  · intro s q ms hrun
    rw [finishRun_commit doc s s.gen q ms rfl hrun]
    refine ⟨rfl, rfl, rfl, ?_⟩
    intro m rest hms
    show firstMatchScroll s ms = some m
    rw [hms]
    rfl
  · intro s g hr hc
    exact reachable_committed doc s hr g hc

/-- The C1/C4 witness document: three pages, "budget" occurs on pages 1
and 3. -/
def docW : SearchDoc :=
  [some ["alpha ", "budget"], some ["beta"], some ["budget time"]]

/-- State after typing "market" (run 1 started, still in flight). -/
def sW1 : SearchEffectState := setQuery docW initialSearchState "market"

/-- State after changing the query to "budget" before run 1 resolves. -/
def sW2 : SearchEffectState := setQuery docW sW1 "budget"

theorem sW2_reachable : SearchReachable docW sW2 :=
  SearchReachable.query sW1 "budget"
    (SearchReachable.query initialSearchState "market" SearchReachable.init)

/-- Witness for C1, the spec scenario: "market" typed, then "budget" before
the first search completes — the superseded "market" run publishes nothing,
and the "budget" run commits `[1, 3]`, resets the index and scrolls to 1. -/
theorem search_last_run_wins_witness :
    finishRun docW sW2 1 "market" = sW2 ∧
    (finishRun docW sW2 2 "budget").searchMatches = [1, 3] ∧
    (finishRun docW sW2 2 "budget").searchIndex = 0 ∧
    (finishRun docW sW2 2 "budget").scrolledTo = some 1 := by
  obtain ⟨h1, h2, -⟩ := search_last_run_wins docW
  obtain ⟨hm, hi, -, hs⟩ := h2 sW2 "budget" [1, 3] (by decide)
  refine ⟨h1 sW2 1 "market" sW2_reachable (by decide) (by decide), ?_, ?_, ?_⟩
  · exact hm
  · exact hi
  · exact hs 1 [3] rfl

/-- C4: in every reachable search state the match list is sorted strictly
ascending by page number with no duplicates, every entry is a valid page
number (1 to the page count), and any committed list is the full
recomputation `runSearch` of its run's query, never an incremental patch. -/
theorem search_matches_sorted_nodup (doc : SearchDoc) (s : SearchEffectState)
    (h : SearchReachable doc s) :
    List.Sorted (· < ·) s.searchMatches ∧
    s.searchMatches.Nodup ∧
    (∀ p ∈ s.searchMatches, 1 ≤ p ∧ p ≤ doc.length) ∧
    (∀ g, s.committedGen = some g →
      ∃ q, runSearch q doc 1 = some s.searchMatches) := by
  obtain ⟨h1, h2, h3⟩ := reachable_matches_sorted doc s h
  refine ⟨h1, h2, h3, ?_⟩
  intro g hg
  obtain ⟨q, -, hrun⟩ := reachable_committed doc s h g hg
  exact ⟨q, hrun⟩

/-- State after the "budget" run of `sW2` commits. -/
def sW3 : SearchEffectState := finishRun docW sW2 2 "budget"

theorem sW3_reachable : SearchReachable docW sW3 :=
  SearchReachable.finish sW2 2 "budget" sW2_reachable (by decide)

/-- Witness for C4 at the committed state `sW3` (matches `[1, 3]`). -/
theorem search_matches_sorted_nodup_witness :
    sW3.searchMatches = [1, 3] ∧
    List.Sorted (· < ·) sW3.searchMatches ∧
    sW3.searchMatches.Nodup ∧
    (∀ p ∈ sW3.searchMatches, 1 ≤ p ∧ p ≤ docW.length) := by
  obtain ⟨h1, h2, h3, -⟩ :=
    search_matches_sorted_nodup docW sW3 sW3_reachable
  exact ⟨by decide, h1, h2, h3⟩

/-- Counterexample to C8 as stated: in a two-page document whose first page
matches the query and whose second page's text extraction fails, the search
run rejects as a whole — the match found on page 1 is not committed and the
state is left untouched, contradicting "the remaining pages are still
scanned and the matches found on other pages are still committed". -/
def docF : SearchDoc := [some ["hello world"], none]

def sF1 : SearchEffectState := setQuery docF initialSearchState "hello"

theorem search_page_failure_counterexample :
    pageMatches "hello" ["hello world"] = true ∧
    runSearch "hello" docF 1 = none ∧
    finishRun docF sF1 1 "hello" = sF1 ∧
    sF1.searchMatches = [] ∧ sF1.committedGen = none := by
  refine ⟨by decide, by decide, ?_, by decide, by decide⟩
  decide

theorem runSearch_abort (q : String) :
    ∀ (doc : SearchDoc) (n : Nat), none ∈ doc → runSearch q doc n = none := by
  intro doc
  induction doc with
  | nil => intro n h; exact absurd h (List.not_mem_nil none)
  | cons page rest ih =>
      intro n h
      cases page with
      | none => rfl
      | some items =>
          have h2 : none ∈ rest := by
            rcases List.mem_cons.mp h with h3 | h3
            · exact Option.noConfusion h3
            · exact h3
          rw [runSearch, ih (n + 1) h2]

theorem runSearch_total (q : String) :
    ∀ (doc : SearchDoc) (n : Nat), none ∉ doc →
      ∃ ms, runSearch q doc n = some ms := by
  intro doc
  induction doc with
  | nil => intro n _; exact ⟨[], rfl⟩
  | cons page rest ih =>
      intro n h
      cases page with
      | none => exact absurd (List.mem_cons_self _ _) h
      | some items =>
          have hrest : none ∉ rest := fun hc => h (List.mem_cons_of_mem _ hc)
          obtain ⟨ms, hms⟩ := ih (n + 1) hrest
          rw [runSearch, hms]
          exact ⟨_, rfl⟩

/-- C8 (amended): a text-extraction failure on any individual page aborts
the entire search run — the run's promise rejects, nothing is committed,
not even matches already found on other pages; only a document whose every
page extracts successfully produces a committed match list; and when no
pages are available at all, search is a synchronous no-op that commits an
empty match list. -/
theorem search_page_failure_aborts (doc : SearchDoc) :
    (∀ (q : String) (n : Nat), none ∈ doc → runSearch q doc n = none) ∧
    (∀ (s : SearchEffectState) (g : Nat) (q : String),
      runSearch q doc 1 = none → finishRun doc s g q = s) ∧
    (∀ (q : String) (n : Nat), none ∉ doc →
      ∃ ms, runSearch q doc n = some ms) ∧
    (∀ (s : SearchEffectState) (raw : String), doc = [] →
      (setQuery doc s raw).searchMatches = [] ∧
      (setQuery doc s raw).searchIndex = 0 ∧
      (setQuery doc s raw).committedGen = none) := by
  refine ⟨?_, ?_, ?_, ?_⟩
  · intro q n hmem
    exact runSearch_abort q doc n hmem
  · intro s g q hrun
    by_cases hgen : g = s.gen
    · exact finishRun_reject doc s g q hgen hrun
    · exact finishRun_stale doc s g q hgen
  · intro q n hmem
    exact runSearch_total q doc n hmem
  · intro s raw hdoc
    subst hdoc
    rw [setQuery_clear [] s raw (Or.inr rfl)]
    exact ⟨rfl, rfl, rfl⟩

/-- Witness for C8 (amended): the failing document `docF` aborts, a fully
extractable document commits, and the empty document clears. -/
theorem search_page_failure_aborts_witness :
    runSearch "hello" docF 1 = none ∧
    finishRun docF sF1 1 "hello" = sF1 ∧
    (∃ ms, runSearch "budget" docW 1 = some ms) ∧
    (setQuery [] initialSearchState "hello").searchMatches = [] := by
  obtain ⟨ha, hb, -, -⟩ := search_page_failure_aborts docF
  obtain ⟨-, -, hc, -⟩ := search_page_failure_aborts docW
  obtain ⟨-, -, -, hd⟩ := search_page_failure_aborts ([] : SearchDoc)
  exact ⟨ha "hello" 1 (by decide), hb sF1 1 "hello" (ha "hello" 1 (by decide)),
    hc "budget" 1 (by decide), (hd initialSearchState "hello" rfl).1⟩

/-! ## Highlight text renderer (`src/renderers/PdfRenderer.tsx`,
lines 175–182 and 542–591)

`customTextRenderer` receives each text-layer fragment and returns HTML
markup; fragment text must always pass through `escapeHtml`.  Strings are
modelled as `List Char`; the emitted markup's plain-text content is
recovered by stripping tags and decoding the five entities (`textContent`).
-/

abbrev Chars := List Char

/-- The apostrophe character (U+0027). -/
def squote : Char := Char.ofNat 39

/-- The double-quote character (U+0022). -/
def dquote : Char := Char.ofNat 34

/-- One `replace(/<pattern>/g, rep)` pass for a single-character pattern. -/
def replaceChar (c : Char) (rep : Chars) : Chars → Chars
  | [] => []
  | x :: rest => (if x = c then rep else [x]) ++ replaceChar c rep rest

/-- `escapeHtml` (PdfRenderer.tsx lines 175–182): five sequential global
replacements, ampersand first. -/
def escapeHtml (l : Chars) : Chars :=
  replaceChar squote "&#039;".data
    (replaceChar dquote "&quot;".data
      (replaceChar '>' "&gt;".data
        (replaceChar '<' "&lt;".data
          (replaceChar '&' "&amp;".data l))))

/-- Per-character view of `escapeHtml`. -/
def escChar (c : Char) : Chars :=
  if c = '&' then "&amp;".data
  else if c = '<' then "&lt;".data
  else if c = '>' then "&gt;".data
  else if c = dquote then "&quot;".data
  else if c = squote then "&#039;".data
  else [c]

def escAll : Chars → Chars
  | [] => []
  | c :: rest => escChar c ++ escAll rest

/-- Decode the five HTML entities produced by `escapeHtml` (greedy,
left to right); other characters pass through. -/
def unescape : Chars → Chars
  | [] => []
  | c :: rest =>
      if "&amp;".data <+: c :: rest then '&' :: unescape ((c :: rest).drop 5)
      else if "&lt;".data <+: c :: rest then '<' :: unescape ((c :: rest).drop 4)
      else if "&gt;".data <+: c :: rest then '>' :: unescape ((c :: rest).drop 4)
      else if "&quot;".data <+: c :: rest then
        dquote :: unescape ((c :: rest).drop 6)
      else if "&#039;".data <+: c :: rest then
        squote :: unescape ((c :: rest).drop 6)
      else c :: unescape rest
termination_by l => l.length
decreasing_by all_goals (simp only [List.length_drop, List.length_cons]; omega)

/-- Skip up to and including the next `>`. -/
def skipTag : Chars → Chars
  | [] => []
  | c :: rest => if c = '>' then rest else skipTag rest

theorem skipTag_length_le (l : Chars) : (skipTag l).length ≤ l.length := by
  induction l with
  | nil => simp [skipTag]
  | cons c rest ih =>
      rw [skipTag]
      split
      · simp
      · exact Nat.le_succ_of_le ih

/-- Drop everything between `<` and the matching `>` (inclusive); the text
content of markup is `unescape ∘ stripTags`. -/
def stripTags : Chars → Chars
  | [] => []
  | c :: rest =>
      if c = '<' then stripTags (skipTag rest) else c :: stripTags rest
termination_by l => l.length
decreasing_by
  · simp
    exact Nat.lt_succ_of_le (skipTag_length_le rest)
  · simp

/-- The plain-text content of emitted markup. -/
def textContent (l : Chars) : Chars := unescape (stripTags l)

/-- `lower.indexOf(pat)`: index of the first occurrence of `pat`. -/
def indexOf? (pat : Chars) : Chars → Option Nat
  | [] => if pat <+: ([] : Chars) then some 0 else none
  | c :: rest =>
      if pat <+: c :: rest then some 0
      else (indexOf? pat rest).map (· + 1)

theorem indexOf?_some_prefix (pat : Chars) :
    ∀ (l : Chars) (i : Nat), indexOf? pat l = some i → pat <+: l.drop i := by
  intro l
  induction l with
  | nil =>
      intro i h
      rw [indexOf?] at h
      split at h
      · obtain rfl := Option.some.inj h
        simpa using ‹pat <+: ([] : Chars)›
      · exact Option.noConfusion h
  | cons c rest ih =>
      intro i h
      rw [indexOf?] at h
      split at h
      · obtain rfl := Option.some.inj h
        simpa using ‹pat <+: c :: rest›
      · obtain ⟨j, hj, rfl⟩ := Option.map_eq_some'.mp h
        simpa using ih j hj

/-- The inner part (between `<` and `>`) of the search-highlight span's
opening tag: `span class="<cls>" style="<sty>"`. -/
def openTagInner (cls sty : Chars) : Chars :=
  "span class=".data ++ [dquote] ++ cls ++ [dquote] ++
    " style=".data ++ [dquote] ++ sty ++ [dquote]

/-- The inner part of `</span>`. -/
def closeTagInner : Chars := "/span".data

/-- The inner part of the whole-page highlight span's opening tag:
`span style="<sty>"`. -/
def pageTagInner (sty : Chars) : Chars :=
  "span style=".data ++ [dquote] ++ sty ++ [dquote]

/-- The highlight loop of `customTextRenderer` (PdfRenderer.tsx lines
554–571): scan the lowercased fragment for the lowercased query left to
right, emitting escaped unmatched text and escaped matched text wrapped in
the highlight span.  The query is passed as head and tail (`q0 :: qrest`),
reflecting that the loop only runs for a non-empty query. -/
def hlLoop (otI ctI : Chars) (q0 : Char) (qrest : Chars) (s : Chars) :
    Chars :=
  match h : indexOf? (q0 :: qrest) (s.map Char.toLower) with
  | none => escapeHtml s
  | some i =>
      escapeHtml (s.take i) ++ ('<' :: otI ++ ['>']) ++
        escapeHtml ((s.drop i).take (q0 :: qrest).length) ++
        ('<' :: ctI ++ ['>']) ++
        hlLoop otI ctI q0 qrest ((s.drop i).drop (q0 :: qrest).length)
termination_by s.length
decreasing_by
  have hpre := indexOf?_some_prefix (q0 :: qrest) (s.map Char.toLower) i h
  have hlen : (q0 :: qrest).length ≤ (s.map Char.toLower).length - i :=
    hpre.length_le.trans (by simp [List.length_drop])
  simp only [List.length_drop, List.length_map, List.length_cons] at hlen ⊢
  omega

/-- `pageNumber != null && highlightPageSet.has(pageNumber)`. -/
def shouldHighlightAll (pageSet : List Nat) : Option Nat → Bool
  | none => false
  | some p => pageSet.contains p

/-- `activeMatchPage === pageNumber` (with a non-null page number). -/
def isActivePage (activeMatchPage : Option Nat) : Option Nat → Bool
  | none => false
  | some p => activeMatchPage == some p

/-- `.trim()` on char lists. -/
def trimChars (l : Chars) : Chars :=
  ((l.dropWhile Char.isWhitespace).reverse.dropWhile Char.isWhitespace).reverse

/-- `[a, b].filter(Boolean).join(";")`. -/
def joinStyles (a b : Chars) : Chars :=
  if a = [] then b else if b = [] then a else a ++ ';' :: b

/-- The style strings and class names the renderer interpolates into the
highlight markup (already converted to inline-CSS text). -/
structure HighlightCfg where
  searchHighlightClassName : Chars
  searchActiveHighlightClassName : Chars
  searchHighlightStyleString : Chars
  searchActiveHighlightStyleString : Chars
  highlightPageTextStyleString : Chars

/-- The class attribute used for a match span:
`isActivePage ? \x60${cls} ${activeCls}\x60.trim() : cls`. -/
def activeCls (cfg : HighlightCfg) (active : Bool) : Chars :=
  if active then
    trimChars (cfg.searchHighlightClassName ++
      ' ' :: cfg.searchActiveHighlightClassName)
  else cfg.searchHighlightClassName

/-- The style attribute used for a match span:
`isActivePage ? [base, active].filter(Boolean).join(";") : base`. -/
def activeSty (cfg : HighlightCfg) (active : Bool) : Chars :=
  if active then
    joinStyles cfg.searchHighlightStyleString
      cfg.searchActiveHighlightStyleString
  else cfg.searchHighlightStyleString

/-- The `result` accumulation of `customTextRenderer` (PdfRenderer.tsx
lines 550–574): with a non-empty query the fragment is scanned by the
highlight loop, otherwise it is escaped unchanged. -/
def renderCore (cfg : HighlightCfg) (query : Chars) (active : Bool)
    (str : Chars) : Chars :=
  match query.map Char.toLower with
  | [] => escapeHtml str
  | q0 :: qrest =>
      hlLoop (openTagInner (activeCls cfg active) (activeSty cfg active))
        closeTagInner q0 qrest str

/-- `customTextRenderer`'s per-fragment transform (PdfRenderer.tsx lines
542–591): `query` is the trimmed search query; an empty fragment yields
`""`; the fragment is processed by `renderCore`; finally, when whole-page
highlighting applies to this page, the result is wrapped in the
page-highlight span. -/
def renderFragment (cfg : HighlightCfg) (query : Chars)
    (enableFullHighlight : Bool) (pageSet : List Nat)
    (activeMatchPage : Option Nat) (str : Chars)
    (pageNumber : Option Nat) : Chars :=
  if str = [] then []
  else if enableFullHighlight && shouldHighlightAll pageSet pageNumber then
    ('<' :: pageTagInner cfg.highlightPageTextStyleString ++ ['>']) ++
      renderCore cfg query (isActivePage activeMatchPage pageNumber) str ++
      ('<' :: closeTagInner ++ ['>'])
  else renderCore cfg query (isActivePage activeMatchPage pageNumber) str

theorem replaceChar_append (c : Char) (rep : Chars) (a b : Chars) :
    replaceChar c rep (a ++ b) = replaceChar c rep a ++ replaceChar c rep b := by
  induction a with
  | nil => rfl
  | cons x a' ih => simp [replaceChar, ih, List.append_assoc]

theorem escapeHtml_append (a b : Chars) :
    escapeHtml (a ++ b) = escapeHtml a ++ escapeHtml b := by
  simp [escapeHtml, replaceChar_append]

theorem escapeHtml_single (c : Char) : escapeHtml [c] = escChar c := by
  by_cases h1 : c = '&'
  · subst h1; rfl
  by_cases h2 : c = '<'
  · subst h2; rfl
  by_cases h3 : c = '>'
  · subst h3; rfl
  by_cases h4 : c = dquote
  · subst h4; rfl
  by_cases h5 : c = squote
  · subst h5; rfl
  simp [escapeHtml, replaceChar, escChar, h1, h2, h3, h4, h5]

theorem escapeHtml_eq_escAll (l : Chars) : escapeHtml l = escAll l := by
  induction l with
  | nil => rfl
  | cons c rest ih =>
      have hcr : (c :: rest : Chars) = [c] ++ rest := rfl
      rw [hcr, escapeHtml_append, escapeHtml_single, ih]
      rfl

theorem escChar_no_angle (c : Char) : '<' ∉ escChar c ∧ '>' ∉ escChar c := by
  unfold escChar
  split_ifs with h1 h2 h3 h4 h5
  · exact ⟨by decide, by decide⟩
  · exact ⟨by decide, by decide⟩
  · exact ⟨by decide, by decide⟩
  · exact ⟨by decide, by decide⟩
  · exact ⟨by decide, by decide⟩
  · constructor
    · intro hm
      exact h2 (List.mem_singleton.mp hm).symm
    · intro hm
      exact h3 (List.mem_singleton.mp hm).symm

theorem escAll_no_angle (l : Chars) : '<' ∉ escAll l ∧ '>' ∉ escAll l := by
  induction l with
  | nil => exact ⟨by decide, by decide⟩
  | cons c rest ih =>
      have hE : escAll (c :: rest) = escChar c ++ escAll rest := rfl
      rw [hE]
      constructor
      · intro hm
        rcases List.mem_append.mp hm with h | h
        · exact (escChar_no_angle c).1 h
        · exact ih.1 h
      · intro hm
        rcases List.mem_append.mp hm with h | h
        · exact (escChar_no_angle c).2 h
        · exact ih.2 h

theorem escapeHtml_no_angle (l : Chars) :
    '<' ∉ escapeHtml l ∧ '>' ∉ escapeHtml l := by
  rw [escapeHtml_eq_escAll]
  exact escAll_no_angle l

theorem not_prefix_head_ne (a c : Char) (l t : Chars) (h : c ≠ a) :
    ¬ (a :: l <+: c :: t) := by
  rintro ⟨u, hu⟩
  simp at hu
  exact h hu.1.symm

theorem not_prefix_second_ne (a x y : Char) (l t : Chars) (h : x ≠ y) :
    ¬ (a :: x :: l <+: a :: y :: t) := by
  rintro ⟨u, hu⟩
  simp at hu
  exact h hu.1

theorem unescape_amp (t : Chars) :
    unescape ('&' :: 'a' :: 'm' :: 'p' :: ';' :: t) = '&' :: unescape t := by
  rw [unescape]
  split
  · rfl
  · next hfalse => exact absurd ⟨t, rfl⟩ hfalse

theorem unescape_lt (t : Chars) :
    unescape ('&' :: 'l' :: 't' :: ';' :: t) = '<' :: unescape t := by
  rw [unescape]
  split
  · next htrue => exact absurd htrue (not_prefix_second_ne '&' 'a' 'l' _ _ (by decide))
  split
  · rfl
  · next hfalse => exact absurd ⟨t, rfl⟩ hfalse

theorem unescape_gt (t : Chars) :
    unescape ('&' :: 'g' :: 't' :: ';' :: t) = '>' :: unescape t := by
  rw [unescape]
  split
  · next htrue => exact absurd htrue (not_prefix_second_ne '&' 'a' 'g' _ _ (by decide))
  split
  · next htrue => exact absurd htrue (not_prefix_second_ne '&' 'l' 'g' _ _ (by decide))
  split
  · rfl
  · next hfalse => exact absurd ⟨t, rfl⟩ hfalse

theorem unescape_quot (t : Chars) :
    unescape ('&' :: 'q' :: 'u' :: 'o' :: 't' :: ';' :: t) =
      dquote :: unescape t := by
  rw [unescape]
  split
  · next htrue => exact absurd htrue (not_prefix_second_ne '&' 'a' 'q' _ _ (by decide))
  split
  · next htrue => exact absurd htrue (not_prefix_second_ne '&' 'l' 'q' _ _ (by decide))
  split
  · next htrue => exact absurd htrue (not_prefix_second_ne '&' 'g' 'q' _ _ (by decide))
  split
  · rfl
  · next hfalse => exact absurd ⟨t, rfl⟩ hfalse

theorem unescape_apos (t : Chars) :
    unescape ('&' :: '#' :: '0' :: '3' :: '9' :: ';' :: t) =
      squote :: unescape t := by
  rw [unescape]
  split
  · next htrue => exact absurd htrue (not_prefix_second_ne '&' 'a' '#' _ _ (by decide))
  split
  · next htrue => exact absurd htrue (not_prefix_second_ne '&' 'l' '#' _ _ (by decide))
  split
  · next htrue => exact absurd htrue (not_prefix_second_ne '&' 'g' '#' _ _ (by decide))
  split
  · next htrue => exact absurd htrue (not_prefix_second_ne '&' 'q' '#' _ _ (by decide))
  split
  · rfl
  · next hfalse => exact absurd ⟨t, rfl⟩ hfalse

theorem unescape_plain (c : Char) (t : Chars) (h : c ≠ '&') :
    unescape (c :: t) = c :: unescape t := by
  rw [unescape]
  split
  · next htrue => exact absurd htrue (not_prefix_head_ne '&' c _ t h)
  split
  · next htrue => exact absurd htrue (not_prefix_head_ne '&' c _ t h)
  split
  · next htrue => exact absurd htrue (not_prefix_head_ne '&' c _ t h)
  split
  · next htrue => exact absurd htrue (not_prefix_head_ne '&' c _ t h)
  split
  · next htrue => exact absurd htrue (not_prefix_head_ne '&' c _ t h)
  · rfl

theorem unescape_escAll (l : Chars) : unescape (escAll l) = l := by
  induction l with
  | nil =>
      have hE : escAll ([] : Chars) = [] := rfl
      rw [hE, unescape]
  | cons c rest ih =>
      have hE : escAll (c :: rest) = escChar c ++ escAll rest := rfl
      rw [hE]
      by_cases h1 : c = '&'
      · subst h1
        exact (unescape_amp (escAll rest)).trans (by rw [ih])
      by_cases h2 : c = '<'
      · subst h2
        exact (unescape_lt (escAll rest)).trans (by rw [ih])
      by_cases h3 : c = '>'
      · subst h3
        exact (unescape_gt (escAll rest)).trans (by rw [ih])
      by_cases h4 : c = dquote
      · subst h4
        exact (unescape_quot (escAll rest)).trans (by rw [ih])
      by_cases h5 : c = squote
      · subst h5
        exact (unescape_apos (escAll rest)).trans (by rw [ih])
      have hc : escChar c = [c] := by simp [escChar, h1, h2, h3, h4, h5]
      rw [hc]
      exact (unescape_plain c (escAll rest) h1).trans (by rw [ih])

theorem unescape_escapeHtml (l : Chars) : unescape (escapeHtml l) = l := by
  rw [escapeHtml_eq_escAll]
  exact unescape_escAll l

theorem stripTags_nil : stripTags [] = [] := by
  rw [stripTags]

theorem stripTags_cons_of_ne (c : Char) (rest : Chars) (h : c ≠ '<') :
    stripTags (c :: rest) = c :: stripTags rest := by
  rw [stripTags]
  exact if_neg h

theorem stripTags_cons_lt (rest : Chars) :
    stripTags ('<' :: rest) = stripTags (skipTag rest) := by
  rw [stripTags]
  exact if_pos rfl

theorem stripTags_clean (l : Chars) (h : '<' ∉ l) : stripTags l = l := by
  induction l with
  | nil => exact stripTags_nil
  | cons c rest ih =>
      have hc : c ≠ '<' := fun he => h (he ▸ List.mem_cons_self c rest)
      rw [stripTags_cons_of_ne c rest hc,
        ih (fun hm => h (List.mem_cons_of_mem c hm))]

theorem stripTags_append_clean (a b : Chars) (h : '<' ∉ a) :
    stripTags (a ++ b) = a ++ stripTags b := by
  induction a with
  | nil => simp
  | cons c a' ih =>
      have hc : c ≠ '<' := fun he => h (he ▸ List.mem_cons_self c a')
      rw [List.cons_append, stripTags_cons_of_ne c (a' ++ b) hc,
        ih (fun hm => h (List.mem_cons_of_mem c hm)), List.cons_append]

theorem skipTag_append (inner rest : Chars) (h : '>' ∉ inner) :
    skipTag (inner ++ '>' :: rest) = rest := by
  induction inner with
  | nil =>
      rw [List.nil_append, skipTag]
      exact if_pos rfl
  | cons c inn ih =>
      have hc : c ≠ '>' := fun he => h (he ▸ List.mem_cons_self c inn)
      rw [List.cons_append, skipTag, if_neg hc,
        ih (fun hm => h (List.mem_cons_of_mem c hm))]

theorem stripTags_tag (inner rest : Chars) (h : '>' ∉ inner) :
    stripTags ('<' :: (inner ++ '>' :: rest)) = stripTags rest := by
  rw [stripTags_cons_lt, skipTag_append inner rest h]

theorem hlLoop_no_match (otI ctI : Chars) (q0 : Char) (qrest s : Chars)
    (h : indexOf? (q0 :: qrest) (s.map Char.toLower) = none) :
    hlLoop otI ctI q0 qrest s = escapeHtml s := by
  rw [hlLoop]
  split
  · rfl
  · next i heq => rw [h] at heq; exact Option.noConfusion heq

theorem hlLoop_match (otI ctI : Chars) (q0 : Char) (qrest s : Chars) (i : Nat)
    (h : indexOf? (q0 :: qrest) (s.map Char.toLower) = some i) :
    hlLoop otI ctI q0 qrest s =
      escapeHtml (s.take i) ++ ('<' :: otI ++ ['>']) ++
        escapeHtml ((s.drop i).take (q0 :: qrest).length) ++
        ('<' :: ctI ++ ['>']) ++
        hlLoop otI ctI q0 qrest ((s.drop i).drop (q0 :: qrest).length) := by
  rw [hlLoop]
  split
  · next heq => rw [h] at heq; exact Option.noConfusion heq
  · next i2 heq =>
      obtain rfl : i2 = i := Option.some.inj (heq.symm.trans h)
      rfl

theorem stripTags_hlLoop_append (otI ctI : Chars)
    (hot : '>' ∉ otI) (hct : '>' ∉ ctI) (q0 : Char) (qrest : Chars) :
    ∀ (n : Nat) (s Z : Chars), s.length ≤ n →
      stripTags (hlLoop otI ctI q0 qrest s ++ Z) =
        escapeHtml s ++ stripTags Z := by
  intro n
  induction n with
  | zero =>
      intro s Z hs
      obtain rfl : s = [] := List.length_eq_zero.mp (Nat.le_zero.mp hs)
      have hidx : indexOf? (q0 :: qrest) (([] : Chars).map Char.toLower) = none := by
        rw [List.map_nil, indexOf?]
        rw [if_neg (by rintro ⟨u, hu⟩; exact List.cons_ne_nil q0 (qrest ++ u) hu)]
      rw [hlLoop_no_match otI ctI q0 qrest [] hidx]
      rw [stripTags_append_clean _ _ (escapeHtml_no_angle []).1]
  | succ n ih =>
      intro s Z hs
      cases hidx : indexOf? (q0 :: qrest) (s.map Char.toLower) with
      | none =>
          rw [hlLoop_no_match otI ctI q0 qrest s hidx]
          rw [stripTags_append_clean _ _ (escapeHtml_no_angle s).1]
      | some i =>
          have hpre := indexOf?_some_prefix (q0 :: qrest) (s.map Char.toLower) i hidx
          have hlen : (q0 :: qrest).length ≤ s.length - i := by
            have := hpre.length_le
            simpa [List.length_drop] using this
          have hpos : 1 ≤ s.length - i := by
            have : 1 ≤ (q0 :: qrest).length := by simp
            omega
          have hrec : ((s.drop i).drop (q0 :: qrest).length).length ≤ n := by
            simp only [List.length_drop, List.length_cons]
            omega
          rw [hlLoop_match otI ctI q0 qrest s i hidx]
          simp only [List.append_assoc, List.cons_append, List.singleton_append,
            List.nil_append]
          rw [stripTags_append_clean _ _ (escapeHtml_no_angle _).1,
            stripTags_tag _ _ hot,
            stripTags_append_clean _ _ (escapeHtml_no_angle _).1,
            stripTags_tag _ _ hct,
            ih ((s.drop i).drop (q0 :: qrest).length) Z hrec]
          simp only [← List.append_assoc]
          rw [← escapeHtml_append, ← escapeHtml_append, List.append_assoc,
            List.take_append_drop, List.take_append_drop]

theorem mem_trimChars (c : Char) (l : Chars) (h : c ∈ trimChars l) :
    c ∈ l := by
  unfold trimChars at h
  rw [List.mem_reverse] at h
  have h2 := (List.dropWhile_sublist _).subset h
  rw [List.mem_reverse] at h2
  exact (List.dropWhile_sublist _).subset h2

theorem activeCls_no_gt (cfg : HighlightCfg) (active : Bool)
    (h1 : '>' ∉ cfg.searchHighlightClassName)
    (h2 : '>' ∉ cfg.searchActiveHighlightClassName) :
    '>' ∉ activeCls cfg active := by
  unfold activeCls
  split
  · intro hm
    have hmem := mem_trimChars _ _ hm
    rcases List.mem_append.mp hmem with h | h
    · exact h1 h
    · rcases List.mem_cons.mp h with h | h
      · exact absurd h (by decide)
      · exact h2 h
  · exact h1

theorem activeSty_no_gt (cfg : HighlightCfg) (active : Bool)
    (h1 : '>' ∉ cfg.searchHighlightStyleString)
    (h2 : '>' ∉ cfg.searchActiveHighlightStyleString) :
    '>' ∉ activeSty cfg active := by
  unfold activeSty joinStyles
  split
  · split_ifs
    · exact h2
    · exact h1
    · intro hm
      rcases List.mem_append.mp hm with h | h
      · exact h1 h
      · rcases List.mem_cons.mp h with h | h
        · exact absurd h (by decide)
        · exact h2 h
  · exact h1

theorem openTagInner_no_gt (cls sty : Chars) (h1 : '>' ∉ cls)
    (h2 : '>' ∉ sty) : '>' ∉ openTagInner cls sty := by
  unfold openTagInner
  intro hm
  simp only [List.mem_append, List.mem_singleton] at hm
  rcases hm with ((((((h | h) | h) | h) | h) | h) | h) | h
  · exact absurd h (by decide)
  · exact absurd h (by decide)
  · exact h1 h
  · exact absurd h (by decide)
  · exact absurd h (by decide)
  · exact absurd h (by decide)
  · exact h2 h
  · exact absurd h (by decide)

theorem closeTagInner_no_gt : '>' ∉ closeTagInner := by decide

theorem pageTagInner_no_gt (sty : Chars) (h : '>' ∉ sty) :
    '>' ∉ pageTagInner sty := by
  unfold pageTagInner
  intro hm
  simp only [List.mem_append, List.mem_singleton] at hm
  rcases hm with ((h2 | h2) | h2) | h2
  · exact absurd h2 (by decide)
  · exact absurd h2 (by decide)
  · exact h h2
  · exact absurd h2 (by decide)

theorem stripTags_renderCore_append (cfg : HighlightCfg) (query : Chars)
    (active : Bool) (str Z : Chars)
    (hcls : '>' ∉ cfg.searchHighlightClassName)
    (hacls : '>' ∉ cfg.searchActiveHighlightClassName)
    (hsty : '>' ∉ cfg.searchHighlightStyleString)
    (hasty : '>' ∉ cfg.searchActiveHighlightStyleString) :
    stripTags (renderCore cfg query active str ++ Z) =
      escapeHtml str ++ stripTags Z := by
  unfold renderCore
  cases hq : query.map Char.toLower with
  | nil => exact stripTags_append_clean _ _ (escapeHtml_no_angle str).1
  | cons q0 qrest =>
      exact stripTags_hlLoop_append
        (openTagInner (activeCls cfg active) (activeSty cfg active))
        closeTagInner
        (openTagInner_no_gt _ _ (activeCls_no_gt cfg active hcls hacls)
          (activeSty_no_gt cfg active hsty hasty))
        closeTagInner_no_gt q0 qrest str.length str Z (Nat.le_refl _)

/-- C10: for every text fragment and configuration whose class/style
strings contain no `>` (the defaults do), the highlight transform
HTML-escapes all fragment text — both outside and inside highlight
spans — so the plain-text content of the emitted markup equals the
original fragment (fragment text can never inject markup); and when the
query is empty and no whole-page highlight applies to the fragment's
page, the transform is the escaped identity. -/
theorem highlight_plaintext_preserved (cfg : HighlightCfg)
    (hcls : '>' ∉ cfg.searchHighlightClassName)
    (hacls : '>' ∉ cfg.searchActiveHighlightClassName)
    (hsty : '>' ∉ cfg.searchHighlightStyleString)
    (hasty : '>' ∉ cfg.searchActiveHighlightStyleString)
    (hpsty : '>' ∉ cfg.highlightPageTextStyleString)
    (query : Chars) (enableFullHighlight : Bool) (pageSet : List Nat)
    (activeMatchPage : Option Nat) (str : Chars) (pageNumber : Option Nat) :
    textContent (renderFragment cfg query enableFullHighlight pageSet
      activeMatchPage str pageNumber) = str ∧
    (query = [] →
      (enableFullHighlight && shouldHighlightAll pageSet pageNumber) = false →
      renderFragment cfg query enableFullHighlight pageSet activeMatchPage
        str pageNumber = if str = [] then [] else escapeHtml str) := by
  constructor
  · unfold renderFragment
    by_cases hstr : str = []
    · rw [if_pos hstr, hstr]
      unfold textContent
      rw [stripTags_nil, unescape]
    · rw [if_neg hstr]
      by_cases hwrap :
          (enableFullHighlight && shouldHighlightAll pageSet pageNumber) = true
      · rw [if_pos hwrap]
        unfold textContent
        simp only [List.append_assoc, List.cons_append, List.singleton_append,
          List.nil_append]
        rw [stripTags_tag _ _ (pageTagInner_no_gt _ hpsty)]
        rw [stripTags_renderCore_append cfg query _ str _ hcls hacls hsty hasty]
        rw [stripTags_tag _ _ closeTagInner_no_gt, stripTags_nil,
          List.append_nil, unescape_escapeHtml]
      · rw [if_neg hwrap]
        unfold textContent
        have h0 := stripTags_renderCore_append cfg query
          (isActivePage activeMatchPage pageNumber) str [] hcls hacls hsty hasty
        rw [List.append_nil] at h0
        rw [h0, stripTags_nil, List.append_nil, unescape_escapeHtml]
  · intro hq hwrap
    unfold renderFragment
    by_cases hstr : str = []
    · rw [if_pos hstr, if_pos hstr]
    · rw [if_neg hstr, if_neg hstr, if_neg (by rw [hwrap]; exact Bool.false_ne_true)]
      unfold renderCore
      rw [hq]
      rfl

/-- The default highlight configuration of the renderer (default class
names, no inline styles, default page-highlight background). -/
def cfgDefault : HighlightCfg :=
  ⟨"document-viewer-search-hit".data, "document-viewer-search-hit-active".data,
    [], [], "background-color:#daf0f6".data⟩

/-- Witness for C10 with the default configuration: the fragment
"Budget plan" under query "budget" keeps its plain text, and an empty
query with no applicable page highlight is the escaped identity. -/
theorem highlight_plaintext_preserved_witness :
    textContent (renderFragment cfgDefault "budget".data false [] none
      "Budget plan".data (some 1)) = "Budget plan".data ∧
    renderFragment cfgDefault [] true [2] none "abc".data (some 1) =
      escapeHtml "abc".data := by
  obtain ⟨h1, -⟩ := highlight_plaintext_preserved cfgDefault (by decide)
    (by decide) (by decide) (by decide) (by decide) "budget".data false []
    none "Budget plan".data (some 1)
  obtain ⟨-, h2⟩ := highlight_plaintext_preserved cfgDefault (by decide)
    (by decide) (by decide) (by decide) (by decide) [] true [2]
    none "abc".data (some 1)
  refine ⟨h1, ?_⟩
  rw [h2 rfl (by decide)]
  rw [if_neg (by decide)]

end DocViewer
